import Mathlib

/-!
Verification of the KiCad-to-Zener converter (`pcb-kicad2zen`).

This file gives a shallow embedding, in Lean 4, of the parsing, mapping and
emission pipeline of the converter, translated from the Rust sources:

* `src/mapping/nets.rs`       — net-name classification (`infer_net_type`)
* `src/mapping/values.rs`     — value normalization (`normalize_value`)
* `src/mapping/symbols.rs`    — library-id to generic-template mapping
* `src/mapping/footprints.rs` — package extraction (`extract_package`)
* `src/parser/pcb.rs`, `src/parser/schematic.rs` — tree walkers over the
  generic s-expression value
* `src/emit/idiomatic.rs`     — the idiomatic emitter used by the CLI
* `src/lib.rs`                — the project assembler

Machine strings are embedded as `List Char` (`String.data`); the Rust regexes
are embedded as hand-rolled deterministic matchers over `List Char`, faithful
to the greedy semantics of the original patterns on their anchored shapes.
Case-insensitive matching (`(?i)`) is modelled by ASCII lowercasing, which
agrees with the Unicode simple case folding of the `regex` crate on all the
ASCII pattern texts that appear in the sources.  Floating-point fields carry
exact rationals; the converter never computes with them, it only stores and
compares defaults.
-/

namespace KicadToZen

/-- Characters of a string; all embedded functions work on `List Char`. -/
abbrev Cs := List Char

/-- ASCII lowercase of every character (models `(?i)` and `str::to_lowercase`
on the ASCII texts manipulated here). -/
def lowerCs (l : Cs) : Cs := l.map Char.toLower

/-- Test that `p` is a prefix of `l` (Rust `str::starts_with`). -/
def startsW (l p : Cs) : Bool := p.isPrefixOf l

/-- Test that `p` is a suffix of `l` (anchored `...$` patterns). -/
def endsW (l p : Cs) : Bool := p.isSuffixOf l

/-- Span of leading ASCII digits (`\d*` / `\d+` with its non-digit continuation). -/
def spanDigits (l : Cs) : Cs × Cs := (l.takeWhile Char.isDigit, l.dropWhile Char.isDigit)

/-- Drop leading whitespace (`\s*`). -/
def dropWs (l : Cs) : Cs := l.dropWhile Char.isWhitespace

/-- Byte length of the character list (Rust `str::len`). -/
def byteLen (l : Cs) : Nat := l.foldl (fun n c => n + c.utf8Size) 0

/-- Whitespace trim of both ends (Rust `str::trim`). -/
def trimCs (l : Cs) : Cs := ((l.dropWhile Char.isWhitespace).reverse.dropWhile Char.isWhitespace).reverse

/-- Contiguous-substring test (Rust `str::contains` on a pattern string). -/
def infixOfCs : Cs → Cs → Bool
  | p, [] => p.isEmpty
  | p, c :: r => p.isPrefixOf (c :: r) || infixOfCs p r

/-!  ## Net classification — `src/mapping/nets.rs`  -/

/-- Inferred net type for Zener output (`NetType` in `mapping/nets.rs`). -/
inductive NetType where
  | power
  | ground
  | diffPairP
  | diffPairN
  | signal
deriving DecidableEq, Repr

/-- Pattern `^\+\d+V` on a lowercased name: a plus sign, one or more digits,
then the letter V. -/
def plusDigitsV (l : Cs) : Bool :=
  match l with
  | '+' :: rest =>
    let (ds, r) := spanDigits rest
    !ds.isEmpty && (match r with | 'v' :: _ => true | _ => false)
  | _ => false

/-- Pattern `^\d+V\d*` on a lowercased name: one or more digits then the
letter V (the trailing `\d*` matches the empty string, so it imposes nothing). -/
def digitsV (l : Cs) : Bool :=
  let (ds, r) := spanDigits l
  !ds.isEmpty && (match r with | 'v' :: _ => true | _ => false)

/-- Power patterns (`POWER_PATTERNS`), each applied to the lowercased name. -/
def powerPats : List (Cs → Bool) :=
  [ fun l => startsW l "vcc".data || startsW l "vdd".data || startsW l "vbat".data ||
      startsW l "vin".data || startsW l "vout".data || startsW l "vbus".data,
    plusDigitsV,
    digitsV,
    fun l => startsW l "pwr".data,
    fun l => endsW l "_pwr".data,
    fun l => startsW l "vref".data,
    fun l => startsW l "avdd".data,
    fun l => startsW l "dvdd".data ]

/-- Ground patterns (`GROUND_PATTERNS`), each applied to the lowercased name. -/
def groundPats : List (Cs → Bool) :=
  [ fun l => startsW l "gnd".data,
    fun l => startsW l "vss".data || startsW l "vee".data,
    fun l => startsW l "dgnd".data,
    fun l => startsW l "agnd".data,
    fun l => startsW l "pgnd".data,
    fun l => startsW l "sgnd".data,
    fun l => endsW l "_gnd".data,
    fun l => l == "0v".data ]

/-- Differential-pair positive patterns (`DIFFPAIR_P_PATTERNS`). -/
def diffPPats : List (Cs → Bool) :=
  [ fun l => endsW l "_p".data || endsW l "-p".data,
    fun l => endsW l "_+".data || endsW l "-+".data,
    fun l => endsW l "_dp".data,
    fun l => endsW l "_pos".data ]

/-- Differential-pair negative patterns (`DIFFPAIR_N_PATTERNS`). -/
def diffNPats : List (Cs → Bool) :=
  [ fun l => endsW l "_n".data || endsW l "-n".data,
    fun l => endsW l "_-".data || endsW l "--".data,
    fun l => endsW l "_dn".data,
    fun l => endsW l "_neg".data ]

/-- Run a pattern set over the (lowercased) characters of a net name. -/
def matchesAny (pats : List (Cs → Bool)) (name : String) : Bool :=
  pats.any (fun p => p (lowerCs name.data))

/-- Names the classifier short-circuits on: empty, or carrying the reserved
marker (`name.is_empty() || name.starts_with("unconnected-")`). -/
def skippedNet (name : String) : Bool :=
  name.data.isEmpty || startsW name.data "unconnected-".data

/-- Translation of `infer_net_type` (`mapping/nets.rs`): skip empty and
unconnected names, then test ground patterns first, then power, then the two
differential-pair sets; the first matching set wins, no match yields signal. -/
def infer_net_type (name : String) : NetType :=
  if skippedNet name then NetType.signal
  else if matchesAny groundPats name then NetType.ground
  else if matchesAny powerPats name then NetType.power
  else if matchesAny diffPPats name then NetType.diffPairP
  else if matchesAny diffNPats name then NetType.diffPairN
  else NetType.signal

/-- Translation of `net_type_constructor` (`mapping/nets.rs`). -/
def net_type_constructor (t : NetType) : String :=
  match t with
  | NetType.power => "Power"
  | NetType.ground => "Ground"
  | _ => "Net"

/-!  ## Identifier sanitation — `sanitize_net_name` in `src/emit/idiomatic.rs`
(the same function appears verbatim as `sanitize_name` in `emit/emitter.rs`
and `sanitize_net_name` in `emit/faithful.rs`).  -/

/-- Rust `char::is_alphabetic` tests the Unicode `Alphabetic` property.  The
embedding covers ASCII letters together with the non-ASCII letters exercised
in this development: the micro sign, the Latin-1 and Latin Extended A/B
letters, and the Greek letter block. -/
def rustIsAlphabetic (c : Char) : Bool :=
  c.isAlpha || c.toNat == 0xB5 ||
    (0xC0 ≤ c.toNat && c.toNat ≤ 0x24F && c.toNat != 0xD7 && c.toNat != 0xF7) ||
    (0x391 ≤ c.toNat && c.toNat ≤ 0x3C9 && c.toNat != 0x3A2)

/-- Rust `char::is_numeric` tests the Unicode `Number` categories; the names
and values this converter manipulates only carry ASCII digits. -/
def rustIsNumeric (c : Char) : Bool := c.isDigit

/-- Rust `char::is_alphanumeric` is `is_alphabetic || is_numeric`. -/
def rustIsAlphanumeric (c : Char) : Bool := rustIsAlphabetic c || rustIsNumeric c

/-- Body of the sanitizer's character loop (`for (i, ch) in name.chars().enumerate()`):
keep alphanumerics and underscores (prefixing an underscore when the first
character is numeric), replace every other character with an underscore. -/
def sanChars : Nat → Cs → Cs
  | _, [] => []
  | i, c :: cs =>
    (if rustIsAlphanumeric c || c = '_' then
      (if i = 0 && rustIsNumeric c then ['_', c] else [c])
    else ['_']) ++ sanChars (i + 1) cs

/-- Reserved keywords of the target language checked by the sanitizer. -/
def reservedKw : List Cs :=
  ["and".data, "or".data, "not".data, "if".data, "else".data, "for".data,
   "in".data, "true".data, "false".data, "none".data]

/-- Translation of `sanitize_net_name` (`emit/idiomatic.rs`): loop over the
characters, append an underscore when the lowercased result is a reserved
keyword, and fall back to the literal `net` when the result is empty. -/
def sanitize_net_name (name : String) : String :=
  let result := sanChars 0 name.data
  let result := if reservedKw.any (fun k => lowerCs result == k) then result ++ ['_'] else result
  if result.isEmpty then "net" else String.mk result

/-- Recognizer for the identifier shape `^[A-Za-z_][A-Za-z0-9_]*$` named by the
specification (stated over ASCII character tests). -/
def matchesIdentShape (s : String) : Bool :=
  match s.data with
  | [] => false
  | c :: cs => (c.isAlpha || c = '_') && cs.all (fun d => d.isAlphanum || d = '_')

/-!  ## Value normalization — `src/mapping/values.rs`

Each regex of the source becomes a deterministic matcher.  Anchored greedy
runs (`\d+`, `\d*`, `\s*`) commit to the maximal munch; this is equivalent to
the backtracking semantics of the original patterns because the continuation
of every such run can never consume a character the run itself accepts.  The
single genuine alternative in each pattern (an optional group) is tried
greedily with an explicit fallback, exactly as the regex engine does.  -/

/-- Component type for context-aware value parsing (`ComponentType`). -/
inductive ComponentType where
  | resistor
  | capacitor
  | inductor
  | other
deriving DecidableEq, Repr

/-- Consume a case-insensitive `ohm` (`[oO]hm` under `(?i)`), returning the rest. -/
def ohmAt (l : Cs) : Option Cs :=
  match l with
  | o :: h :: m :: rest =>
    if o.toLower = 'o' && h.toLower = 'h' && m.toLower = 'm' then some rest else none
  | _ => none

/-- Numeric token `(\d+(?:\.\d+)?)`: an integer part, optionally a dot and a
fractional part; the group is taken whenever digits follow the dot. -/
def numTok (l : Cs) : Option (Cs × Cs) :=
  match spanDigits l with
  | ([], _) => none
  | (d1, '.' :: r2) =>
    match spanDigits r2 with
    | ([], _) => some (d1, '.' :: r2)
    | (d2, r3) => some (d1 ++ '.' :: d2, r3)
  | (d1, r1) => some (d1, r1)

/-- Tail test `s?$` (under `(?i)`): the remainder is empty or a lone letter s. -/
def tailS (l : Cs) : Bool :=
  match l with
  | [] => true
  | [c] => c.toLower = 's'
  | _ => false

/-- Matcher for `RESISTOR_SHORTHAND`, `(?i)^(\d+)([kKmM])(\d*)(?:\s*[oO]hm)?s?$`;
returns the whole part, the multiplier letter and the decimal part. -/
def rShort (l : Cs) : Option (Cs × Char × Cs) :=
  match spanDigits l with
  | ([], _) => none
  | (d1, c :: r2) =>
    if c = 'k' || c = 'K' || c = 'm' || c = 'M' then
      match spanDigits r2 with
      | (d2, r3) =>
        if (match ohmAt (dropWs r3) with | some t => tailS t | none => false) || tailS r3 then
          some (d1, c, d2)
        else none
    else none
  | (_, []) => none

/-- Character class `[kmgμu]` under `(?i)` (the regex crate folds the Greek
capital Mu onto μ). -/
def isRUnit (c : Char) : Bool :=
  c.toLower = 'k' || c.toLower = 'm' || c.toLower = 'g' || c.toLower = 'u' || c = 'μ' || c = 'Μ'

/-- Matcher for `RESISTOR_EXPLICIT`, `(?i)^(\d+(?:\.\d+)?)\s*([kmgμu]?)\s*[oO]hm`
(unanchored at the right); returns the numeric part and the captured unit
letter (possibly empty). -/
def rExplicit (l : Cs) : Option (Cs × Cs) :=
  match numTok l with
  | none => none
  | some (num, r1) =>
    match dropWs r1 with
    | [] => none
    | c :: r3 =>
      if isRUnit c && (ohmAt (dropWs r3)).isSome then some (num, [c])
      else if (ohmAt (c :: r3)).isSome then some (num, []) else none

/-- Matcher for `RESISTOR_PLAIN`, `^(\d+(?:\.\d+)?)$`. -/
def rPlain (l : Cs) : Bool :=
  match numTok l with
  | some (_, []) => true
  | _ => false

/-- Multiplier normalization of `normalize_resistor_value`: `k`/`K` stays `k`,
`m`/`M` becomes `M`, anything else empties (unreachable for the class). -/
def multNormR (c : Char) : Cs :=
  if c.toLower = 'k' then ['k'] else if c.toLower = 'm' then ['M'] else []

/-- Prefix normalization of the explicit-unit branch: `k`→`k`, `m`→`M`,
`g`→`G`, `μ`/`u`→`u`, otherwise empty. -/
def prefNormR (p : Cs) : Cs :=
  match p with
  | [] => []
  | c :: _ =>
    if c.toLower = 'k' then ['k']
    else if c.toLower = 'm' then ['M']
    else if c.toLower = 'g' then ['G']
    else if c = 'μ' || c = 'Μ' || c.toLower = 'u' then ['u']
    else []

/-- Translation of `normalize_resistor_value`. -/
def normalize_resistor_value (l : Cs) : Cs :=
  match rShort l with
  | some (w, m, d) =>
    if d.isEmpty then w ++ multNormR m ++ "ohm".data
    else w ++ '.' :: d ++ multNormR m ++ "ohm".data
  | none =>
    match rExplicit l with
    | some (num, p) => num ++ prefNormR p ++ "ohm".data
    | none => if rPlain l then l ++ "ohm".data else l

/-- Character class `[pnuμm]` under `(?i)`. -/
def isCapUnit (c : Char) : Bool :=
  c.toLower = 'p' || c.toLower = 'n' || c.toLower = 'u' || c.toLower = 'm' || c = 'μ' || c = 'Μ'

/-- Metric-prefix normalization shared by the capacitor and inductor branches:
`p`→`p`, `n`→`n`, `u`/`μ`→`u`, `m`→`m`, otherwise empty. -/
def capPrefNorm (c : Char) : Cs :=
  if c.toLower = 'p' then ['p']
  else if c.toLower = 'n' then ['n']
  else if c = 'μ' || c = 'Μ' || c.toLower = 'u' then ['u']
  else if c.toLower = 'm' then ['m']
  else []

/-- Matcher for `CAPACITOR_SHORTHAND`, `(?i)^(\d+(?:\.\d+)?)\s*([pnuμm])[fF]?$`. -/
def capShort (l : Cs) : Option (Cs × Char) :=
  match numTok l with
  | none => none
  | some (num, r1) =>
    match dropWs r1 with
    | [] => none
    | c :: r2 =>
      if isCapUnit c then
        match r2 with
        | [] => some (num, c)
        | [f] => if f.toLower = 'f' then some (num, c) else none
        | _ => none
      else none

/-- Matcher for `CAPACITOR_EXPLICIT`, `(?i)^(\d+(?:\.\d+)?)\s*([pnuμm])[fF]`
(unanchored at the right). -/
def capExpl (l : Cs) : Option (Cs × Char) :=
  match numTok l with
  | none => none
  | some (num, r1) =>
    match dropWs r1 with
    | c :: f :: _ => if isCapUnit c && f.toLower = 'f' then some (num, c) else none
    | _ => none

/-- Matcher for `INDUCTOR_SHORTHAND`, `(?i)^(\d+(?:\.\d+)?)\s*([pnuμm])[hH]?$`. -/
def indShort (l : Cs) : Option (Cs × Char) :=
  match numTok l with
  | none => none
  | some (num, r1) =>
    match dropWs r1 with
    | [] => none
    | c :: r2 =>
      if isCapUnit c then
        match r2 with
        | [] => some (num, c)
        | [f] => if f.toLower = 'h' then some (num, c) else none
        | _ => none
      else none

/-- Translation of `normalize_capacitor_value`. -/
def normalize_capacitor_value (l : Cs) : Cs :=
  match capShort l with
  | some (num, c) => num ++ capPrefNorm c ++ ['F']
  | none =>
    match capExpl l with
    | some (num, c) => num ++ capPrefNorm c ++ ['F']
    | none => l

/-- Translation of `normalize_inductor_value`. -/
def normalize_inductor_value (l : Cs) : Cs :=
  match indShort l with
  | some (num, c) => num ++ capPrefNorm c ++ ['H']
  | none => l

/-- Translation of `looks_like_mpn` (`mapping/values.rs`; the same heuristic
appears in `emit/idiomatic.rs` and `emit/emitter.rs`): a hyphen in a string
longer than 4 bytes, or more than 3 alphabetic characters in a string longer
than 8 bytes. -/
def looks_like_mpn (l : Cs) : Bool :=
  (l.contains '-' && byteLen l > 4) || (byteLen l > 8 && (l.filter rustIsAlphabetic).length > 3)

/-- Translation of `normalize_value` (`mapping/values.rs`): trim, pass through
anything that looks like a manufacturer part number, then dispatch on the
component kind. -/
def normalize_value (value : String) (k : ComponentType) : String :=
  let t := trimCs value.data
  if looks_like_mpn t then String.mk t
  else
    match k with
    | ComponentType.resistor => String.mk (normalize_resistor_value t)
    | ComponentType.capacitor => String.mk (normalize_capacitor_value t)
    | ComponentType.inductor => String.mk (normalize_inductor_value t)
    | ComponentType.other => String.mk t

/-!  ## Symbol mapping — `src/mapping/symbols.rs`  -/

/-- Information about a stdlib generic module (`GenericInfo`). -/
structure GenericInfo where
  module_path : String
  module_name : String
  pin_map : List (String × String)
  flags : List (String × String)
deriving DecidableEq, Repr

/-- Symbol pattern (`SymbolPattern`): an exact match or a prefix match. -/
inductive SymbolPattern where
  | exact (s : String)
  | prefixPat (s : String)
deriving DecidableEq, Repr

/-- Translation of `SymbolPattern::matches`. -/
def SymbolPattern.patMatches (p : SymbolPattern) (lib_id : String) : Bool :=
  match p with
  | SymbolPattern.exact s => lib_id == s
  | SymbolPattern.prefixPat s => startsW lib_id.data s.data

/-- Two-pin passive pin map shared by most table entries. -/
def pinsP1P2 : List (String × String) := [("1", "P1"), ("2", "P2")]

/-- Diode/LED pin map. -/
def pinsKA : List (String × String) := [("1", "K"), ("2", "A")]

/-- Translation of the ordered `SYMBOL_MAP` table (`mapping/symbols.rs`). -/
def symbolMap : List (SymbolPattern × GenericInfo) :=
  [ (SymbolPattern.exact "Device:R",
      ⟨"@stdlib/generics/Resistor.zen", "Resistor", pinsP1P2, []⟩),
    (SymbolPattern.exact "Device:R_Small",
      ⟨"@stdlib/generics/Resistor.zen", "Resistor", pinsP1P2, []⟩),
    (SymbolPattern.exact "Device:C",
      ⟨"@stdlib/generics/Capacitor.zen", "Capacitor", pinsP1P2, []⟩),
    (SymbolPattern.exact "Device:C_Small",
      ⟨"@stdlib/generics/Capacitor.zen", "Capacitor", pinsP1P2, []⟩),
    (SymbolPattern.exact "Device:C_Polarized",
      ⟨"@stdlib/generics/Capacitor.zen", "Capacitor", pinsP1P2, [("polarized", "true")]⟩),
    (SymbolPattern.exact "Device:C_Polarized_Small",
      ⟨"@stdlib/generics/Capacitor.zen", "Capacitor", pinsP1P2, [("polarized", "true")]⟩),
    (SymbolPattern.exact "Device:L",
      ⟨"@stdlib/generics/Inductor.zen", "Inductor", pinsP1P2, []⟩),
    (SymbolPattern.exact "Device:L_Small",
      ⟨"@stdlib/generics/Inductor.zen", "Inductor", pinsP1P2, []⟩),
    (SymbolPattern.exact "Device:D",
      ⟨"@stdlib/generics/Diode.zen", "Diode", pinsKA, []⟩),
    (SymbolPattern.exact "Device:D_Small",
      ⟨"@stdlib/generics/Diode.zen", "Diode", pinsKA, []⟩),
    (SymbolPattern.exact "Device:D_Zener",
      ⟨"@stdlib/generics/Diode.zen", "Diode", pinsKA, [("diode_type", "\"zener\"")]⟩),
    (SymbolPattern.exact "Device:D_Schottky",
      ⟨"@stdlib/generics/Diode.zen", "Diode", pinsKA, [("diode_type", "\"schottky\"")]⟩),
    (SymbolPattern.exact "Device:LED",
      ⟨"@stdlib/generics/Led.zen", "Led", pinsKA, []⟩),
    (SymbolPattern.exact "Device:LED_Small",
      ⟨"@stdlib/generics/Led.zen", "Led", pinsKA, []⟩),
    (SymbolPattern.exact "Device:Ferrite_Bead",
      ⟨"@stdlib/generics/FerriteBead.zen", "FerriteBead", pinsP1P2, []⟩),
    (SymbolPattern.exact "Device:Ferrite_Bead_Small",
      ⟨"@stdlib/generics/FerriteBead.zen", "FerriteBead", pinsP1P2, []⟩),
    (SymbolPattern.exact "Device:Crystal",
      ⟨"@stdlib/generics/Crystal.zen", "Crystal", pinsP1P2, []⟩),
    (SymbolPattern.exact "Device:Crystal_Small",
      ⟨"@stdlib/generics/Crystal.zen", "Crystal", pinsP1P2, []⟩),
    (SymbolPattern.exact "Device:Crystal_GND24",
      ⟨"@stdlib/generics/Crystal.zen", "Crystal",
        [("1", "P1"), ("3", "P2"), ("2", "GND"), ("4", "GND")], []⟩),
    (SymbolPattern.prefixPat "Device:Thermistor",
      ⟨"@stdlib/generics/Thermistor.zen", "Thermistor", pinsP1P2, []⟩),
    (SymbolPattern.prefixPat "Device:Q_NPN",
      ⟨"@stdlib/generics/Bjt.zen", "Bjt",
        [("1", "B"), ("2", "C"), ("3", "E")], [("polarity", "\"NPN\"")]⟩),
    (SymbolPattern.prefixPat "Device:Q_PNP",
      ⟨"@stdlib/generics/Bjt.zen", "Bjt",
        [("1", "B"), ("2", "C"), ("3", "E")], [("polarity", "\"PNP\"")]⟩),
    (SymbolPattern.prefixPat "Device:Q_NMOS",
      ⟨"@stdlib/generics/Mosfet.zen", "Mosfet",
        [("1", "G"), ("2", "D"), ("3", "S")], [("channel", "\"N\"")]⟩),
    (SymbolPattern.prefixPat "Device:Q_PMOS",
      ⟨"@stdlib/generics/Mosfet.zen", "Mosfet",
        [("1", "G"), ("2", "D"), ("3", "S")], [("channel", "\"P\"")]⟩),
    (SymbolPattern.prefixPat "Connector:TestPoint",
      ⟨"@stdlib/generics/TestPoint.zen", "TestPoint", [("1", "P1")], []⟩) ]

/-- Translation of `map_symbol` (`mapping/symbols.rs`): first matching table
entry in declaration order, `none` when unmapped. -/
def map_symbol (lib_id : String) : Option GenericInfo :=
  (symbolMap.find? (fun e => e.1.patMatches lib_id)).map (fun e => e.2)

/-!  ## Package extraction — `src/mapping/footprints.rs`  -/

/-- Exactly four ASCII digits (`\d{4}`). -/
def take4d (l : Cs) : Option (Cs × Cs) :=
  match l with
  | a :: b :: c :: d :: r =>
    if a.isDigit && b.isDigit && c.isDigit && d.isDigit then some ([a, b, c, d], r) else none
  | _ => none

/-- Tail `\d+Metric` (unanchored at the right). -/
def metricTail (l : Cs) : Bool :=
  let (ds, r) := spanDigits l
  !ds.isEmpty && startsW r "Metric".data

/-- Pattern `^[RCL]_(\d{4})_\d+Metric`. -/
def patRCLMetric (l : Cs) : Option Cs :=
  match l with
  | c :: '_' :: r =>
    if c = 'R' || c = 'C' || c = 'L' then
      match take4d r with
      | some (cap, '_' :: r2) => if metricTail r2 then some cap else none
      | _ => none
    else none
  | _ => none

/-- Pattern `^LED_(\d{4})_\d+Metric`. -/
def patLedMetric (l : Cs) : Option Cs :=
  if startsW l "LED_".data then
    match take4d (l.drop 4) with
    | some (cap, '_' :: r2) => if metricTail r2 then some cap else none
    | _ => none
  else none

/-- Pattern `^L_(\d{4})_\d+Metric` (subsumed by the first table entry, kept for
fidelity to the source list). -/
def patLMetric (l : Cs) : Option Cs :=
  match l with
  | 'L' :: '_' :: r =>
    match take4d r with
    | some (cap, '_' :: r2) => if metricTail r2 then some cap else none
    | _ => none
  | _ => none

/-- Pattern `^Crystal_SMD_(\d{4})-\d+Pin`. -/
def patCrystal (l : Cs) : Option Cs :=
  if startsW l "Crystal_SMD_".data then
    match take4d (l.drop 12) with
    | some (cap, '-' :: r2) =>
      let (ds, r3) := spanDigits r2
      if !ds.isEmpty && startsW r3 "Pin".data then some cap else none
    | _ => none
  else none

/-- Pattern `^D_(\d{4})$`. -/
def patD4 (l : Cs) : Option Cs :=
  match l with
  | 'D' :: '_' :: r =>
    match take4d r with
    | some (cap, []) => some cap
    | _ => none
  | _ => none

/-- Pattern `^D_(SOD-\d+)` (unanchored at the right). -/
def patDSod (l : Cs) : Option Cs :=
  if startsW l "D_SOD-".data then
    let (ds, _) := spanDigits (l.drop 6)
    if ds.isEmpty then none else some ("SOD-".data ++ ds)
  else none

/-- Pattern for a literal tag followed by `-\d+`, capturing tag, dash, digits. -/
def patTagDash (tag : Cs) (l : Cs) : Option Cs :=
  if startsW l (tag ++ ['-']) then
    let (ds, _) := spanDigits (l.drop (tag.length + 1))
    if ds.isEmpty then none else some (tag ++ '-' :: ds)
  else none

/-- Pattern `^(QFN-\d+|DFN-\d+)`. -/
def patQfnDfn (l : Cs) : Option Cs :=
  match patTagDash "QFN".data l with
  | some cap => some cap
  | none => patTagDash "DFN".data l

/-- Ordered pattern table `PACKAGE_PATTERNS` (`mapping/footprints.rs`). -/
def packagePats : List (Cs → Option Cs) :=
  [ patRCLMetric, patLedMetric, patLMetric, patCrystal, patD4, patDSod,
    patTagDash "SOT".data, patQfnDfn, patTagDash "SOIC".data, patTagDash "TSSOP".data ]

/-- Portion of a footprint name after the last colon (`split(':').last()`). -/
def afterLastColon (l : Cs) : Cs := (l.reverse.takeWhile (fun c => c ≠ ':')).reverse

/-- Translation of `extract_package` (`mapping/footprints.rs`): strip the
library prefix, then return the first capturing pattern's capture. -/
def extract_package (footprint : String) : Option String :=
  let name := afterLastColon footprint.data
  (packagePats.findSome? (fun p => p name)).map String.mk

/-!  ## Data model — `src/parser/pcb.rs`, `src/parser/schematic.rs`,
`src/parser/project.rs`, `src/lib.rs`

Numeric file fields are embedded as exact rationals: the converter only
stores, defaults and compares them, it never computes with them.  The
`HashMap` fields are embedded as association lists whose order models the
map's (arbitrary) iteration order.  The Rust field `at` is rendered `atPos`
(`at` is reserved in Lean).  -/

/-- Translation of `Pad` (`parser/pcb.rs`). -/
structure Pad where
  number : String
  pad_type : String
  shape : String
  atPos : ℚ × ℚ × ℚ
  net_id : Nat
  net_name : String
deriving DecidableEq, Repr

/-- Translation of `Layer` (`parser/pcb.rs`). -/
structure Layer where
  number : Nat
  name : String
  layer_type : String
deriving DecidableEq, Repr

/-- Translation of `Footprint` (`parser/pcb.rs`). -/
structure Footprint where
  uuid : String
  footprint : String
  layer : String
  atPos : ℚ × ℚ × ℚ
  path : String
  reference : String
  value : String
  attrs : List String
  pads : List Pad
  properties : List (String × String)
deriving DecidableEq, Repr

/-- Translation of `KicadPcb` (`parser/pcb.rs`). -/
structure KicadPcb where
  version : Nat
  thickness : ℚ
  layers : List Layer
  nets : List (Nat × String)
  footprints : List Footprint
deriving DecidableEq, Repr

/-- Translation of `LibPin` (`parser/schematic.rs`). -/
structure LibPin where
  number : String
  name : String
  pin_type : String
deriving DecidableEq, Repr

/-- Translation of `LibSymbol` (`parser/schematic.rs`). -/
structure LibSymbol where
  name : String
  properties : List (String × String)
  pins : List LibPin
deriving DecidableEq, Repr

/-- Translation of `SchematicSymbol` (`parser/schematic.rs`). -/
structure SchematicSymbol where
  uuid : String
  lib_id : String
  atPos : ℚ × ℚ × ℚ
  reference : String
  value : String
  footprint : String
  dnp : Bool
  exclude_from_bom : Bool
  exclude_from_board : Bool
  pins : List (String × String)
  properties : List (String × String)
deriving DecidableEq, Repr

/-- Translation of `KicadSchematic` (`parser/schematic.rs`). -/
structure KicadSchematic where
  version : Nat
  uuid : String
  lib_symbols : List (String × LibSymbol)
  symbols : List SchematicSymbol
deriving DecidableEq, Repr

/-- Translation of `NetClass` (`parser/project.rs`). -/
structure NetClass where
  name : String
  track_width : ℚ
  clearance : ℚ
  via_diameter : ℚ
  via_drill : ℚ
  diff_pair_width : ℚ
  diff_pair_gap : ℚ
deriving DecidableEq, Repr

/-- Translation of `DesignRules` (`parser/project.rs`). -/
structure DesignRules where
  min_clearance : ℚ
  min_track_width : ℚ
  min_via_diameter : ℚ
  min_via_drill : ℚ
  min_hole_clearance : ℚ
  min_copper_edge_clearance : ℚ
deriving DecidableEq, Repr

/-- Translation of `KicadPro` (`parser/project.rs`). -/
structure KicadPro where
  net_classes : List NetClass
  design_rules : DesignRules
deriving DecidableEq, Repr

/-- Translation of `KicadProject` (`src/lib.rs`). -/
structure KicadProject where
  name : String
  schematic : Option KicadSchematic
  pcb : Option KicadPcb
  project : Option KicadPro
deriving DecidableEq, Repr

/-!  ## String ordering

Rust sorts `Vec<&String>` by the `Ord` instance of `String`, lexicographic on
bytes; on UTF-8 data this coincides with lexicographic comparison of code
points, embedded here directly.  -/

/-- Lexicographic (non-strict) comparison of character lists by code point. -/
def strLeB : Cs → Cs → Bool
  | [], _ => true
  | _ :: _, [] => false
  | a :: as_, b :: bs => if a < b then true else if b < a then false else strLeB as_ bs

/-- Order relation on strings used by the emitter's sorts. -/
def sLe (a b : String) : Prop := strLeB a.data b.data = true

instance : DecidableRel sLe := fun a b => by unfold sLe; infer_instance

/-- Sorting of a list of strings (Rust `Vec::sort`; the emitted order only
depends on the order relation because the sorted keys are distinct). -/
def sortStr (l : List String) : List String := List.insertionSort sLe l

/-!  ## Idiomatic emitter — `src/emit/idiomatic.rs`

The emitter of the source appends to a growing output string; each `writeln!`
group becomes a function returning its contribution.  -/

/-- Surround a string with double quotes. -/
def quoteS (s : String) : String := "\"" ++ s ++ "\""

/-- Separator join (`Vec::join`). -/
def joinSep (sep : String) : List String → String
  | [] => ""
  | [x] => x
  | x :: xs => x ++ sep ++ joinSep sep xs

/-- Header block of `emit_idiomatic`. -/
def emitHeaderIdiomatic (name : String) : String :=
  "# Auto-generated from KiCad project: " ++ name ++ "\n" ++
  "# Mode: idiomatic (uses stdlib generics)\n" ++ "\n" ++
  "# ```pcb\n" ++ "# [workspace]\n" ++ "# pcb-version = \"0.3\"\n" ++ "# ```\n" ++ "\n"

/-- Insert into an association list modelling `HashMap::insert`: replace the
entry carrying the key, or add a new entry. -/
def hmInsert {α β : Type} [BEq α] (m : List (α × β)) (k : α) (v : β) : List (α × β) :=
  if m.any (fun e => e.1 == k) then m.map (fun e => if e.1 == k then (k, v) else e)
  else m ++ [(k, v)]

/-- Translation of `collect_nets` (`emit/idiomatic.rs`): every named,
non-unconnected net of the PCB net table, keyed by name, valued by its
inferred type. -/
def collect_nets (p : KicadProject) : List (String × NetType) :=
  match p.pcb with
  | none => []
  | some pcb =>
    pcb.nets.foldl
      (fun m e =>
        if !(e.2 == "") && !(startsW e.2.data "unconnected-".data) then
          hmInsert m e.2 (infer_net_type e.2)
        else m)
      []

/-- Translation of `collect_used_modules` (`emit/idiomatic.rs`): the set of
module paths of mapped symbols (`HashSet` embedded as a duplicate-free list). -/
def collect_used_modules (p : KicadProject) : List String :=
  match p.schematic with
  | none => []
  | some sch =>
    sch.symbols.foldl
      (fun mods s =>
        match map_symbol s.lib_id with
        | some info => if mods.contains info.module_path then mods else mods ++ [info.module_path]
        | none => mods)
      []

/-- Translation of `emit_imports` (`emit/idiomatic.rs`). -/
def emit_imports (nets : List (String × NetType)) : String :=
  let has_power := nets.any (fun e => e.2 == NetType.power)
  let has_ground := nets.any (fun e => e.2 == NetType.ground)
  (if has_power || has_ground then
    let imports := (if has_power then ["Power"] else []) ++ (if has_ground then ["Ground"] else [])
    "load(\"@stdlib/interfaces.zen\", " ++ joinSep ", " (imports.map quoteS) ++ ")\n"
  else "") ++ "\n"

/-- Strip every trailing repetition of a suffix (`str::trim_end_matches`),
with the list length as fuel. -/
def trimEndAll (suf : Cs) : Nat → Cs → Cs
  | 0, l => l
  | n + 1, l =>
    if !suf.isEmpty && endsW l suf then trimEndAll suf n (l.take (l.length - suf.length)) else l

/-- Module alias name: the path segment after the last `/`, with every
trailing `.zen` stripped (`path.rsplit('/').next().unwrap_or("").trim_end_matches(".zen")`). -/
def aliasNameOf (path : String) : String :=
  let seg := (path.data.reverse.takeWhile (fun c => c ≠ '/')).reverse
  String.mk (trimEndAll ".zen".data seg.length seg)

/-- Translation of `emit_module_aliases` (`emit/idiomatic.rs`): sorted module
paths, one alias line each, then a blank line; nothing when no module is used. -/
def emit_module_aliases (mods : List String) : String :=
  if mods.isEmpty then ""
  else
    (sortStr mods).foldl
      (fun out path => out ++ aliasNameOf path ++ " = Module(" ++ quoteS path ++ ")\n") ""
    ++ "\n"

/-- Value of a key in the collected net map (`nets[name]`; the emitter only
indexes keys it just enumerated, so the default is never surfaced). -/
def findTypeIn (nets : List (String × NetType)) (name : String) : NetType :=
  ((nets.find? (fun e => e.1 == name)).map (fun e => e.2)).getD NetType.signal

/-- One net declaration line of `emit_net_declarations`. -/
def netDeclLine (name : String) (t : NetType) : String :=
  match t with
  | NetType.power => sanitize_net_name name ++ " = Power(" ++ quoteS name ++ ")\n"
  | NetType.ground => sanitize_net_name name ++ " = Ground(" ++ quoteS name ++ ")\n"
  | _ => sanitize_net_name name ++ " = Net(" ++ quoteS name ++ ")\n"

/-- Sorted raw net names the declaration loop runs over. -/
def sortedNetNames (nets : List (String × NetType)) : List String :=
  sortStr (nets.map (fun e => e.1))

/-- Translation of `emit_net_declarations` (`emit/idiomatic.rs`). -/
def emit_net_declarations (nets : List (String × NetType)) : String :=
  if nets.isEmpty then ""
  else
    "# Nets\n" ++
    (sortedNetNames nets).foldl (fun out name => out ++ netDeclLine name (findTypeIn nets name)) ""
    ++ "\n"

/-- Map from stripped footprint path to footprint (`uuid_to_footprint` in
`emit_components_idiomatic`; `trim_start_matches('/')` strips all leading
slashes). -/
def uuid_to_footprint (p : KicadProject) : List (String × Footprint) :=
  match p.pcb with
  | none => []
  | some pcb =>
    pcb.footprints.foldl
      (fun m fp => hmInsert m (String.mk (fp.path.data.dropWhile (fun c => c = '/'))) fp) []

/-- Lookup in the uuid-to-footprint map (`HashMap::get`). -/
def lookupFp (m : List (String × Footprint)) (uuid : String) : Option Footprint :=
  (m.find? (fun e => e.1 == uuid)).map (fun e => e.2)

/-- Shared pad filter of both emission cases: a pad is kept when its net name
is non-empty and does not start with the reserved `unconnected-` marker. -/
def padKept (pad : Pad) : Bool :=
  !(pad.net_name == "") && !(startsW pad.net_name.data "unconnected-".data)

/-- Pin name for a pad number: the template's pin table entry, falling back to
the raw pad number. -/
def pinNameFor (pm : List (String × String)) (num : String) : String :=
  ((pm.find? (fun e => e.1 == num)).map (fun e => e.2)).getD num

/-- Pin-connection lines of the mapped case: one line per kept pad. -/
def mappedPinLines (pm : List (String × String)) (fpOpt : Option Footprint) : String :=
  match fpOpt with
  | none => ""
  | some fp =>
    (fp.pads.filter padKept).foldl
      (fun out pad =>
        out ++ "    " ++ pinNameFor pm pad.number ++ "=" ++ sanitize_net_name pad.net_name ++ ",\n")
      ""

/-- Translation of `ComponentType::from_lib_id` (`mapping/values.rs`). -/
def ComponentType.from_lib_id (lib_id : String) : ComponentType :=
  let lower := lowerCs lib_id.data
  if infixOfCs ":r_".data lower || infixOfCs ":r ".data lower || endsW lower ":r".data ||
      infixOfCs "resistor".data lower then ComponentType.resistor
  else if infixOfCs ":c_".data lower || infixOfCs ":c ".data lower || endsW lower ":c".data ||
      infixOfCs "capacitor".data lower then ComponentType.capacitor
  else if infixOfCs ":l_".data lower || infixOfCs ":l ".data lower || endsW lower ":l".data ||
      infixOfCs "inductor".data lower then ComponentType.inductor
  else ComponentType.other

/-- Translation of `emit_component_idiomatic` (`emit/idiomatic.rs`). -/
def emit_component_idiomatic (s : SchematicSymbol) (info : GenericInfo)
    (fpOpt : Option Footprint) : String :=
  let comp_type := ComponentType.from_lib_id s.lib_id
  info.module_name ++ "(\n" ++
  "    name=\"" ++ s.reference ++ "\",\n" ++
  (if !(s.value == "") && comp_type ≠ ComponentType.other then
    let normalized := normalize_value s.value comp_type
    if normalized ≠ s.value || !looks_like_mpn s.value.data then
      "    value=\"" ++ normalized ++ "\",\n"
    else ""
  else "") ++
  (match extract_package s.footprint with
   | some pkg => "    package=\"" ++ pkg ++ "\",\n"
   | none => "") ++
  info.flags.foldl (fun out kv => out ++ "    " ++ kv.1 ++ "=" ++ kv.2 ++ ",\n") "" ++
  (if s.dnp then "    dnp=True,\n" else "") ++
  (if s.exclude_from_bom then "    skip_bom=True,\n" else "") ++
  mappedPinLines info.pin_map fpOpt ++
  ")\n" ++ "\n"

/-- Translation of `split_lib_id` (`emit/idiomatic.rs`): split at the first
colon; lacking one, the library part is empty. -/
def split_lib_id (lib_id : String) : String × String :=
  let pre_ := lib_id.data.takeWhile (fun c => c ≠ ':')
  if pre_.length = lib_id.data.length then ("", lib_id)
  else (String.mk pre_, String.mk (lib_id.data.drop (pre_.length + 1)))

/-- Pin-number to raw-net pairs of the fallback case, built with the shared
pad filter. -/
def fallbackPinNets (fp : Footprint) : List (String × String) :=
  (fp.pads.filter padKept).map (fun pad => (pad.number, pad.net_name))

/-- Pins dictionary of the fallback case (literal braces written as escapes). -/
def fallbackPinsBlock (fpOpt : Option Footprint) : String :=
  match fpOpt with
  | none => ""
  | some fp =>
    let pin_nets := fallbackPinNets fp
    if pin_nets.isEmpty then ""
    else
      "    pins=\x7b\n" ++
      pin_nets.foldl
        (fun out pn => out ++ "        \"" ++ pn.1 ++ "\": " ++ sanitize_net_name pn.2 ++ ",\n") ""
      ++ "    \x7d,\n"

/-- Translation of `emit_component_fallback` (`emit/idiomatic.rs`). -/
def emit_component_fallback (s : SchematicSymbol) (fpOpt : Option Footprint) : String :=
  "# Unmapped symbol: " ++ s.lib_id ++ "\n" ++
  "Component(\n" ++
  "    name=\"" ++ s.reference ++ "\",\n" ++
  "    symbol=Symbol(library=\"" ++ (split_lib_id s.lib_id).1 ++ "\", name=\"" ++
    (split_lib_id s.lib_id).2 ++ "\"),\n" ++
  (if s.footprint == "" then "" else "    footprint=\"" ++ s.footprint ++ "\",\n") ++
  (if s.value == "" then "" else "    value=\"" ++ s.value ++ "\",\n") ++
  (if s.dnp then "    dnp=True,\n" else "") ++
  (if s.exclude_from_bom then "    skip_bom=True,\n" else "") ++
  fallbackPinsBlock fpOpt ++
  ")\n" ++ "\n"

/-- Block emitted for one placed symbol: the mapped generic when the symbol
map knows the library-id, the raw fallback otherwise. -/
def componentBlock (um : List (String × Footprint)) (s : SchematicSymbol) : String :=
  match map_symbol s.lib_id with
  | some info => emit_component_idiomatic s info (lookupFp um s.uuid)
  | none => emit_component_fallback s (lookupFp um s.uuid)

/-- Translation of `emit_components_idiomatic` (`emit/idiomatic.rs`); the
unused `nets` parameter of the source is dropped. -/
def emit_components_idiomatic (p : KicadProject) : String :=
  match p.schematic with
  | none => ""
  | some sch =>
    let um := uuid_to_footprint p
    "# Components\n" ++ sch.symbols.foldl (fun out s => out ++ componentBlock um s) ""

/-- Translation of `emit_idiomatic` (`emit/idiomatic.rs`): header, imports,
module aliases, net declarations, component blocks — and nothing after them. -/
def emit_idiomatic (p : KicadProject) : String :=
  let nets := collect_nets p
  let used_modules := collect_used_modules p
  emitHeaderIdiomatic p.name ++ emit_imports nets ++ emit_module_aliases used_modules ++
  emit_net_declarations nets ++ emit_components_idiomatic p

/-!  ## The s-expression tree — collaborator `pcb_sexpr`

Modelled from the spec: the generic tree-tokenizer is an external collaborator
(spec §1, §3.8); it returns a generic nested-list value whose node kinds are
symbol, string and list.  Numeric accessors read decimal notation of a bare
atom into exact integers and rationals.  -/

/-- Generic s-expression value (symbol atom, quoted string atom, or list). -/
inductive Sexpr where
  | sym (s : String)
  | str (s : String)
  | list (items : List Sexpr)
deriving Repr

/-- List accessor (`Sexpr::as_list`). -/
def Sexpr.as_list : Sexpr → Option (List Sexpr)
  | Sexpr.list items => some items
  | _ => none

/-- Symbol accessor (`Sexpr::as_sym`). -/
def Sexpr.as_sym : Sexpr → Option String
  | Sexpr.sym s => some s
  | _ => none

/-- String accessor (`Sexpr::as_str`). -/
def Sexpr.as_str : Sexpr → Option String
  | Sexpr.str s => some s
  | _ => none

/-- Value of a nonempty all-digit run. -/
def digitsToNat (l : Cs) : Option Nat :=
  if !l.isEmpty && l.all Char.isDigit then
    some (l.foldl (fun n c => n * 10 + (c.toNat - '0'.toNat)) 0)
  else none

/-- Modelled from the spec: integer reading of a bare atom (`Sexpr::as_int`). -/
def Sexpr.as_int : Sexpr → Option Int
  | Sexpr.sym s =>
    match s.data with
    | '-' :: rest => (digitsToNat rest).map (fun n => -(n : Int))
    | l => (digitsToNat l).map (fun n => (n : Int))
  | _ => none

/-- Modelled from the spec: decimal reading of a bare atom (`Sexpr::as_float`),
into an exact rational. -/
def Sexpr.as_float : Sexpr → Option ℚ
  | Sexpr.sym s =>
    let core : Cs → Option ℚ := fun l =>
      let (ip, r) := spanDigits l
      if ip.isEmpty then none
      else
        match r with
        | [] => (digitsToNat ip).map (fun n => (n : ℚ))
        | '.' :: fp =>
          if !fp.isEmpty && fp.all Char.isDigit then
            (digitsToNat ip).bind (fun n =>
              (digitsToNat fp).map (fun f => (n : ℚ) + (f : ℚ) / ((10 : ℚ) ^ fp.length)))
          else none
        | _ => none
    match s.data with
    | '-' :: rest => (core rest).map (fun q => -q)
    | l => core l
  | _ => none

/-- Translation of `get_string_value` (identical in `parser/pcb.rs` and
`parser/schematic.rs`): string or symbol text, defaulting to the empty string. -/
def getStringValue (e : Sexpr) : String :=
  ((e.as_str).orElse (fun _ => e.as_sym)).getD ""

/-!  ## PCB parser — `src/parser/pcb.rs`  -/

/-- Translation of `parse_general`: the first `thickness` child's coerced
float, defaulting to 1.6 — both when the element is absent and when its value
is malformed. -/
def parse_general (l : List Sexpr) : ℚ :=
  go (l.drop 1)
where
  go : List Sexpr → ℚ
  | [] => (1.6 : ℚ)
  | item :: rest =>
    match item.as_list with
    | some items =>
      if (items.head?.bind Sexpr.as_sym) = some "thickness" then
        ((items.get? 1).bind Sexpr.as_float).getD (1.6 : ℚ)
      else go rest
    | none => go rest

/-- Translation of `parse_layers`. -/
def parse_layers (l : List Sexpr) : List Layer :=
  (l.drop 1).foldl
    (fun layers item =>
      match item.as_list with
      | some items =>
        match items.head?.bind Sexpr.as_int with
        | some num =>
          layers ++ [{ number := num.toNat,
                       name := ((items.get? 1).map getStringValue).getD "",
                       layer_type := ((items.get? 2).bind Sexpr.as_sym).getD "user" }]
        | none => layers
      | none => layers)
    []

/-- Translation of `parse_pad`: fails only when the pad number token (index 1)
is missing; pad technology defaults to `smd`, shape to `rect`, position
coordinates to 0.0, net id to 0 and net name to the empty string. -/
def parse_pad (l : List Sexpr) : Except Unit Pad :=
  match l.get? 1 with
  | none => Except.error ()
  | some numTok_ =>
    let pad0 : Pad :=
      { number := getStringValue numTok_,
        pad_type := ((l.get? 2).bind Sexpr.as_sym).getD "smd",
        shape := ((l.get? 3).bind Sexpr.as_sym).getD "rect",
        atPos := (0, 0, 0), net_id := 0, net_name := "" }
    Except.ok <| (l.drop 4).foldl
      (fun pad item =>
        match item.as_list with
        | some items =>
          match items.head?.bind Sexpr.as_sym with
          | some "at" =>
            { pad with atPos :=
                (((items.get? 1).bind Sexpr.as_float).getD 0,
                 ((items.get? 2).bind Sexpr.as_float).getD 0,
                 ((items.get? 3).bind Sexpr.as_float).getD 0) }
          | some "net" =>
            { pad with
                net_id := (((items.get? 1).bind Sexpr.as_int).getD 0).toNat,
                net_name := ((items.get? 2).map getStringValue).getD "" }
          | _ => pad
        | none => pad)
      pad0

/-- Translation of `parse_footprint`: fails only when the footprint name token
(index 1) is missing; a pad whose own parse fails is dropped silently. -/
def parse_footprint (l : List Sexpr) : Except Unit Footprint :=
  match l.get? 1 with
  | none => Except.error ()
  | some nameTok =>
    let fp0 : Footprint :=
      { uuid := "", footprint := getStringValue nameTok, layer := "", atPos := (0, 0, 0),
        path := "", reference := "", value := "", attrs := [], pads := [], properties := [] }
    Except.ok <| (l.drop 2).foldl
      (fun fp item =>
        match item.as_list with
        | some items =>
          match items.head?.bind Sexpr.as_sym with
          | some "uuid" => { fp with uuid := ((items.get? 1).map getStringValue).getD "" }
          | some "layer" => { fp with layer := ((items.get? 1).map getStringValue).getD "" }
          | some "at" =>
            { fp with atPos :=
                (((items.get? 1).bind Sexpr.as_float).getD 0,
                 ((items.get? 2).bind Sexpr.as_float).getD 0,
                 ((items.get? 3).bind Sexpr.as_float).getD 0) }
          | some "path" => { fp with path := ((items.get? 1).map getStringValue).getD "" }
          | some "property" =>
            match (items.get? 1).bind Sexpr.as_str, items.get? 2 with
            | some key, some val =>
              let value := getStringValue val
              let fp := { fp with properties := hmInsert fp.properties key value }
              if key = "Reference" then { fp with reference := value }
              else if key = "Value" then { fp with value := value }
              else fp
            | _, _ => fp
          | some "attr" =>
            { fp with attrs := fp.attrs ++ (items.drop 1).filterMap Sexpr.as_sym }
          | some "pad" =>
            match parse_pad items with
            | Except.ok pad => { fp with pads := fp.pads ++ [pad] }
            | Except.error _ => fp
          | _ => fp
        | none => fp)
      fp0

/-- Walk of the root items of a `kicad_pcb` document (`KicadPcb::parse_str`
body): version, general, layers, net table and footprints; a footprint whose
own parse fails is dropped silently. -/
def pcbFromItems (items : List Sexpr) : KicadPcb :=
  (items.drop 1).foldl
    (fun pcb item =>
      match item.as_list with
      | some its =>
        match its.head?.bind Sexpr.as_sym with
        | some "version" =>
          match its.get? 1 with
          | some v => { pcb with version := ((v.as_int).getD 0).toNat }
          | none => pcb
        | some "general" => { pcb with thickness := parse_general its }
        | some "layers" => { pcb with layers := parse_layers its }
        | some "net" =>
          match (its.get? 1).bind Sexpr.as_int, (its.get? 2).map getStringValue with
          | some id, some name => { pcb with nets := hmInsert pcb.nets id.toNat name }
          | _, _ => pcb
        | some "footprint" =>
          match parse_footprint its with
          | Except.ok fp => { pcb with footprints := pcb.footprints ++ [fp] }
          | Except.error _ => pcb
        | _ => pcb
      | none => pcb)
    { version := 0, thickness := 0, layers := [], nets := [], footprints := [] }

/-!  ## Schematic parser — `src/parser/schematic.rs`  -/

/-- Translation of `parse_pins_from_symbol`: pins of a nested symbol unit;
a pin with an empty number is dropped. -/
def parse_pins_from_symbol (l : List Sexpr) : List LibPin :=
  l.foldl
    (fun pins item =>
      match item.as_list with
      | some items =>
        if (items.head?.bind Sexpr.as_sym) = some "pin" then
          let pin0 : LibPin :=
            { number := "", name := "", pin_type := ((items.get? 1).bind Sexpr.as_sym).getD "passive" }
          let pin := (items.drop 2).foldl
            (fun pin sub =>
              match sub.as_list with
              | some sub_items =>
                match sub_items.head?.bind Sexpr.as_sym with
                | some "name" =>
                  match sub_items.get? 1 with
                  | some n => { pin with name := getStringValue n }
                  | none => pin
                | some "number" =>
                  match sub_items.get? 1 with
                  | some n => { pin with number := getStringValue n }
                  | none => pin
                | _ => pin
              | none => pin)
            pin0
          if !(pin.number == "") then pins ++ [pin] else pins
        else pins
      | none => pins)
    []

/-- Translation of `parse_lib_symbols` (fallible in the source's signature but
with no failure path). -/
def parse_lib_symbols (l : List Sexpr) : List (String × LibSymbol) :=
  (l.drop 1).foldl
    (fun symbols item =>
      match item.as_list with
      | some items =>
        if (items.head?.bind Sexpr.as_sym) = some "symbol" then
          match (items.get? 1).bind (fun s => (s.as_str).orElse (fun _ => s.as_sym)) with
          | some name =>
            let lib0 : LibSymbol := { name := name, properties := [], pins := [] }
            let lib := (items.drop 2).foldl
              (fun lib sub =>
                match sub.as_list with
                | some sub_items =>
                  match sub_items.head?.bind Sexpr.as_sym with
                  | some "property" =>
                    match (sub_items.get? 1).bind Sexpr.as_str, sub_items.get? 2 with
                    | some key, some val =>
                      { lib with properties := hmInsert lib.properties key (getStringValue val) }
                    | _, _ => lib
                  | some "symbol" =>
                    { lib with pins := lib.pins ++ parse_pins_from_symbol sub_items }
                  | _ => lib
                | none => lib)
              lib0
            hmInsert symbols name lib
          | none => symbols
        else symbols
      | none => symbols)
    []

/-- Translation of `parse_schematic_symbol` (fallible in the source's
signature but with no failure path: every missing sub-element leaves its
field at the zero value of the initial record). -/
def parse_schematic_symbol (l : List Sexpr) : Except Unit SchematicSymbol :=
  Except.ok <| (l.drop 1).foldl
    (fun sym item =>
      match item.as_list with
      | some items =>
        match items.head?.bind Sexpr.as_sym with
        | some "lib_id" =>
          match items.get? 1 with
          | some v => { sym with lib_id := getStringValue v }
          | none => sym
        | some "uuid" =>
          match items.get? 1 with
          | some v => { sym with uuid := getStringValue v }
          | none => sym
        | some "at" =>
          { sym with atPos :=
              (((items.get? 1).bind Sexpr.as_float).getD 0,
               ((items.get? 2).bind Sexpr.as_float).getD 0,
               ((items.get? 3).bind Sexpr.as_float).getD 0) }
        | some "dnp" =>
          { sym with dnp := (((items.get? 1).bind Sexpr.as_sym).map (fun s => s == "yes")).getD false }
        | some "in_bom" =>
          { sym with exclude_from_bom :=
              (((items.get? 1).bind Sexpr.as_sym).map (fun s => s == "no")).getD false }
        | some "on_board" =>
          { sym with exclude_from_board :=
              (((items.get? 1).bind Sexpr.as_sym).map (fun s => s == "no")).getD false }
        | some "property" =>
          match (items.get? 1).bind Sexpr.as_str, items.get? 2 with
          | some key, some val =>
            let value := getStringValue val
            let sym := { sym with properties := hmInsert sym.properties key value }
            if key = "Reference" then { sym with reference := value }
            else if key = "Value" then { sym with value := value }
            else if key = "Footprint" then { sym with footprint := value }
            else sym
          | _, _ => sym
        | some "pin" =>
          match (items.get? 1).bind Sexpr.as_str with
          | some pin_num =>
            match (items.get? 2).bind Sexpr.as_list with
            | some uuid_list =>
              if (uuid_list.head?.bind Sexpr.as_sym) = some "uuid" then
                match uuid_list.get? 1 with
                | some uuid => { sym with pins := hmInsert sym.pins pin_num (getStringValue uuid) }
                | none => sym
              else sym
            | none => sym
          | none => sym
        | _ => sym
      | none => sym)
    { uuid := "", lib_id := "", atPos := (0, 0, 0), reference := "", value := "",
      footprint := "", dnp := false, exclude_from_bom := false, exclude_from_board := false,
      pins := [], properties := [] }

/-- Walk of the root items of a `kicad_sch` document (`KicadSchematic::parse_str`
body). -/
def schematicFromItems (items : List Sexpr) : KicadSchematic :=
  (items.drop 1).foldl
    (fun sch item =>
      match item.as_list with
      | some its =>
        match its.head?.bind Sexpr.as_sym with
        | some "version" =>
          match its.get? 1 with
          | some v => { sch with version := ((v.as_int).getD 0).toNat }
          | none => sch
        | some "uuid" =>
          match its.get? 1 with
          | some v => { sch with uuid := getStringValue v }
          | none => sch
        | some "lib_symbols" => { sch with lib_symbols := parse_lib_symbols its }
        | some "symbol" =>
          match parse_schematic_symbol its with
          | Except.ok s => { sch with symbols := sch.symbols ++ [s] }
          | Except.error _ => sch
        | _ => sch
      | none => sch)
    { version := 0, uuid := "", lib_symbols := [], symbols := [] }

/-!  ## Tokenizer — collaborator `pcb_sexpr::parse`

Modelled from the spec: the byte-to-tree tokenizer is an external
collaborator; it reads one parenthesized nested-list value made of symbol
atoms, quoted string atoms (with backslash escapes) and sublists. -/

/-- Quoted-string body: read up to the closing quote, honoring backslash
escapes. -/
def sxStrLit : Cs → Cs → Option (String × Cs)
  | acc, '"' :: r => some (String.mk acc.reverse, r)
  | acc, '\\' :: c :: r => sxStrLit (c :: acc) r
  | acc, c :: r => sxStrLit (c :: acc) r
  | _, [] => none

mutual

/-- Read one s-expression value (fuel-indexed). -/
def sxOne : Nat → Cs → Option (Sexpr × Cs)
  | 0, _ => none
  | fuel + 1, l =>
    match l.dropWhile Char.isWhitespace with
    | [] => none
    | '(' :: r =>
      match sxMany fuel r with
      | some (items, r2) =>
        match r2.dropWhile Char.isWhitespace with
        | ')' :: r3 => some (Sexpr.list items, r3)
        | _ => none
      | none => none
    | ')' :: _ => none
    | '"' :: r =>
      match sxStrLit [] r with
      | some (s, r2) => some (Sexpr.str s, r2)
      | none => none
    | l2 =>
      let tok := l2.takeWhile (fun c => !(c.isWhitespace || c = '(' || c = ')' || c = '"'))
      let r := l2.dropWhile (fun c => !(c.isWhitespace || c = '(' || c = ')' || c = '"'))
      if tok.isEmpty then none else some (Sexpr.sym (String.mk tok), r)

/-- Read a sequence of s-expression values, stopping before a closing paren. -/
def sxMany : Nat → Cs → Option (List Sexpr × Cs)
  | 0, _ => none
  | fuel + 1, l =>
    match l.dropWhile Char.isWhitespace with
    | [] => some ([], [])
    | ')' :: r => some ([], ')' :: r)
    | l2 =>
      match sxOne fuel l2 with
      | some (e, r) =>
        match sxMany fuel r with
        | some (es, r2) => some (e :: es, r2)
        | none => none
      | none => none

end

/-- Modelled from the spec: the collaborator tokenizer entry point
(`pcb_sexpr::parse`), reading one value covering the whole input. -/
def sexprParse (content : String) : Except Unit Sexpr :=
  match sxOne (4 * content.data.length + 16) content.data with
  | some (e, rest) =>
    if (rest.dropWhile Char.isWhitespace).isEmpty then Except.ok e else Except.error ()
  | none => Except.error ()

/-- Translation of `KicadSchematic::parse_str`: tokenize, require a root list
tagged `kicad_sch`, then walk; both a tokenizer failure and a root-tag
mismatch are format errors. -/
def schematicParseStr (content : String) : Except Unit KicadSchematic :=
  match sexprParse content with
  | Except.error _ => Except.error ()
  | Except.ok e =>
    match e.as_list with
    | none => Except.error ()
    | some items =>
      if (items.head?.bind Sexpr.as_sym) = some "kicad_sch" then Except.ok (schematicFromItems items)
      else Except.error ()

/-- Translation of `KicadPcb::parse_str`: tokenize, require a root list
tagged `kicad_pcb`, then walk. -/
def pcbParseStr (content : String) : Except Unit KicadPcb :=
  match sexprParse content with
  | Except.error _ => Except.error ()
  | Except.ok e =>
    match e.as_list with
    | none => Except.error ()
    | some items =>
      if (items.head?.bind Sexpr.as_sym) = some "kicad_pcb" then Except.ok (pcbFromItems items)
      else Except.error ()

/-!  ## Settings parser — `src/parser/project.rs`

Modelled from the spec: the JSON deserialization itself is done by the
`serde_json` collaborator; the document is an object with every field
optional.  The acceptor below checks JSON well-formedness of an object
document; the returned settings record is the fully-defaulted one that the
source produces for a document carrying none of the recognized fields (the
claims of this development never inspect net-class contents).  -/

/-- JSON number syntax after the optional sign. -/
def jNumTail (l : Cs) : Option Cs :=
  let (ip, r1) := spanDigits l
  if ip.isEmpty then none
  else
    let r2 := match r1 with
      | '.' :: r => let (fp, r') := spanDigits r
                    if fp.isEmpty then none else some r'
      | _ => some r1
    match r2 with
    | none => none
    | some r3 =>
      match r3 with
      | 'e' :: r | 'E' :: r =>
        let r' := match r with
          | '+' :: r'' => r''
          | '-' :: r'' => r''
          | _ => r
        let (ep, r4) := spanDigits r'
        if ep.isEmpty then none else some r4
      | _ => some r3

mutual

/-- Accept one JSON value, returning the rest of the input. -/
def jVal : Nat → Cs → Option Cs
  | 0, _ => none
  | fuel + 1, l =>
    match l.dropWhile Char.isWhitespace with
    | '\x7b' :: r =>
      match r.dropWhile Char.isWhitespace with
      | '\x7d' :: r2 => some r2
      | r2 => jMembers fuel r2
    | '[' :: r =>
      match r.dropWhile Char.isWhitespace with
      | ']' :: r2 => some r2
      | r2 => jItems fuel r2
    | '"' :: r => (sxStrLit [] r).map (fun p => p.2)
    | '-' :: r => jNumTail r
    | l2 =>
      if startsW l2 "true".data then some (l2.drop 4)
      else if startsW l2 "false".data then some (l2.drop 5)
      else if startsW l2 "null".data then some (l2.drop 4)
      else jNumTail l2

/-- Accept JSON object members up to and including the closing brace. -/
def jMembers : Nat → Cs → Option Cs
  | 0, _ => none
  | fuel + 1, l =>
    match l with
    | '"' :: r =>
      match sxStrLit [] r with
      | some (_, r2) =>
        match r2.dropWhile Char.isWhitespace with
        | ':' :: r3 =>
          match jVal fuel r3 with
          | some r4 =>
            match r4.dropWhile Char.isWhitespace with
            | ',' :: r5 => jMembers fuel (r5.dropWhile Char.isWhitespace)
            | '\x7d' :: r5 => some r5
            | _ => none
          | none => none
        | _ => none
      | none => none
    | _ => none

/-- Accept JSON array items up to and including the closing bracket. -/
def jItems : Nat → Cs → Option Cs
  | 0, _ => none
  | fuel + 1, l =>
    match jVal fuel l with
    | some r =>
      match r.dropWhile Char.isWhitespace with
      | ',' :: r2 => jItems fuel r2
      | ']' :: r2 => some r2
      | _ => none
    | none => none

end

/-- Modelled from the spec: `KicadPro::parse_str` — a well-formed JSON object
document yields the defaulted settings record, anything else is a format
error. -/
def kicadProParseStr (content : String) : Except Unit KicadPro :=
  match content.data.dropWhile Char.isWhitespace with
  | '\x7b' :: _ =>
    match jVal (2 * content.data.length + 16) content.data with
    | some rest =>
      if (rest.dropWhile Char.isWhitespace).isEmpty then
        Except.ok { net_classes := [],
                    design_rules := { min_clearance := 0, min_track_width := 0,
                                      min_via_diameter := 0, min_via_drill := 0,
                                      min_hole_clearance := 0, min_copper_edge_clearance := 0 } }
      else Except.error ()
    | none => Except.error ()
  | _ => Except.error ()

/-!  ## Project assembler — `KicadProject::parse` in `src/lib.rs`

The directory is embedded as its listing outcome: either a failure (the
directory cannot be read) or the list of entries, each carrying its file name
and its read outcome.  -/

/-- Failure kinds of the conversion (spec §7): an I/O failure or a format
failure. -/
inductive ConvError where
  | ioError
  | formatError
deriving DecidableEq, Repr

/-- Directory entry: file name and the outcome of reading it. -/
structure DirEntry where
  name : String
  content : Except Unit String
deriving Repr

/-- Rust `Path::extension`: the portion of the file name after the last dot,
absent when there is no dot or when only a leading dot exists. -/
def pathExtension (name : String) : Option String :=
  let fname := (name.data.reverse.takeWhile (fun c => c ≠ '/')).reverse
  if fname.contains '.' then
    let ext := (fname.reverse.takeWhile (fun c => c ≠ '.')).reverse
    if fname.length = ext.length + 1 && fname.take 1 = ['.'] then none
    else some (String.mk ext)
  else none

/-- Read outcome of an entry, surfaced as the conversion's I/O failure. -/
def readEntry (e : DirEntry) : Except ConvError String :=
  match e.content with
  | Except.ok c => Except.ok c
  | Except.error _ => Except.error ConvError.ioError

/-- Body of the assembler's directory loop (`src/lib.rs`): dispatch on the
extension, parse a matched file (its read failure is an I/O error, its parse
failure a format error, both propagated), overwrite the field of its kind,
ignore unmatched extensions. -/
def KicadProject.parseStep (proj : KicadProject) (e : DirEntry) :
    Except ConvError KicadProject :=
  match pathExtension e.name with
  | some "kicad_sch" =>
    match readEntry e with
    | Except.error err => Except.error err
    | Except.ok c =>
      match schematicParseStr c with
      | Except.ok s => Except.ok { proj with schematic := some s }
      | Except.error _ => Except.error ConvError.formatError
  | some "kicad_pcb" =>
    match readEntry e with
    | Except.error err => Except.error err
    | Except.ok c =>
      match pcbParseStr c with
      | Except.ok s => Except.ok { proj with pcb := some s }
      | Except.error _ => Except.error ConvError.formatError
  | some "kicad_pro" =>
    match readEntry e with
    | Except.error err => Except.error err
    | Except.ok c =>
      match kicadProParseStr c with
      | Except.ok s => Except.ok { proj with project := some s }
      | Except.error _ => Except.error ConvError.formatError
  | _ => Except.ok proj

/-- Translation of `KicadProject::parse` (`src/lib.rs`): enumerate the
entries and run the dispatch loop over them, starting from the empty
aggregate; a directory that cannot be listed is an I/O error. -/
def KicadProject.parse (dirName : String) (listing : Except Unit (List DirEntry)) :
    Except ConvError KicadProject :=
  match listing with
  | Except.error _ => Except.error ConvError.ioError
  | Except.ok entries =>
    entries.foldlM KicadProject.parseStep
      { name := dirName, schematic := none, pcb := none, project := none }

/-- Successful-entry predicate: a recognized entry reads and parses, an
unrecognized one imposes nothing. -/
def entryOk (e : DirEntry) : Bool :=
  match pathExtension e.name with
  | some "kicad_sch" =>
    match e.content with
    | Except.ok c => (schematicParseStr c).isOk
    | Except.error _ => false
  | some "kicad_pcb" =>
    match e.content with
    | Except.ok c => (pcbParseStr c).isOk
    | Except.error _ => false
  | some "kicad_pro" =>
    match e.content with
    | Except.ok c => (kicadProParseStr c).isOk
    | Except.error _ => false
  | _ => true

/-- Error-free reading of the assembler loop: the same dispatch, keeping the
previous aggregate in place of any failure (used to state what the assembler
returns when every matched entry succeeds: the last file of each recognized
extension wins, unmatched extensions are ignored). -/
def aggregateStep (proj : KicadProject) (e : DirEntry) : KicadProject :=
  match pathExtension e.name with
  | some "kicad_sch" =>
    match e.content with
    | Except.ok c =>
      match schematicParseStr c with
      | Except.ok s => { proj with schematic := some s }
      | Except.error _ => proj
    | Except.error _ => proj
  | some "kicad_pcb" =>
    match e.content with
    | Except.ok c =>
      match pcbParseStr c with
      | Except.ok s => { proj with pcb := some s }
      | Except.error _ => proj
    | Except.error _ => proj
  | some "kicad_pro" =>
    match e.content with
    | Except.ok c =>
      match kicadProParseStr c with
      | Except.ok s => { proj with project := some s }
      | Except.error _ => proj
    | Except.error _ => proj
  | _ => proj

/-- Aggregate of a directory whose matched entries all succeed. -/
def aggregateOf (dirName : String) (entries : List DirEntry) : KicadProject :=
  entries.foldl aggregateStep
    { name := dirName, schematic := none, pcb := none, project := none }

/-!  ## Theorems  -/

/-- Claim C1: for every net name the classifier returns one of the five net
types, in the fixed order of the source: an empty name or a name with the
reserved `unconnected-` marker is signal before any rule is tested; otherwise
the ground rule set is tested first, then power, then differential-positive,
then differential-negative; the first matching rule set determines the result
and no match yields signal. -/
theorem infer_net_type_fixed_order (n : String) :
    (infer_net_type n = NetType.power ∨ infer_net_type n = NetType.ground ∨
     infer_net_type n = NetType.diffPairP ∨ infer_net_type n = NetType.diffPairN ∨
     infer_net_type n = NetType.signal)
  ∧ (skippedNet n = true → infer_net_type n = NetType.signal)
  ∧ (skippedNet n = false → matchesAny groundPats n = true →
      infer_net_type n = NetType.ground)
  ∧ (skippedNet n = false → matchesAny groundPats n = false →
      matchesAny powerPats n = true → infer_net_type n = NetType.power)
  ∧ (skippedNet n = false → matchesAny groundPats n = false →
      matchesAny powerPats n = false → matchesAny diffPPats n = true →
      infer_net_type n = NetType.diffPairP)
  ∧ (skippedNet n = false → matchesAny groundPats n = false →
      matchesAny powerPats n = false → matchesAny diffPPats n = false →
      matchesAny diffNPats n = true → infer_net_type n = NetType.diffPairN)
  ∧ (skippedNet n = false → matchesAny groundPats n = false →
      matchesAny powerPats n = false → matchesAny diffPPats n = false →
      matchesAny diffNPats n = false → infer_net_type n = NetType.signal) := by
  cases h1 : skippedNet n <;> cases h2 : matchesAny groundPats n <;>
    cases h3 : matchesAny powerPats n <;> cases h4 : matchesAny diffPPats n <;>
    cases h5 : matchesAny diffNPats n <;>
    simp [infer_net_type, h1, h2, h3, h4, h5]

/-- Witness for C1 at the name `VIN_GND`, which matches both a ground pattern
(`_GND$`) and a power pattern (`^VIN`): ground wins because its rule set is
tested first. -/
theorem infer_net_type_fixed_order_witness :
    infer_net_type "VIN_GND" = NetType.ground :=
  (infer_net_type_fixed_order "VIN_GND").2.2.1 (by decide) (by decide)

/-- Claim C6, counterexample: Rust `char::is_alphanumeric` accepts every
Unicode letter, so the sanitizer keeps `é` and the result does not match
`^[A-Za-z_][A-Za-z0-9_]*$`. -/
theorem sanitize_net_name_not_ascii_identifier :
    sanitize_net_name "é" = "é" ∧ matchesIdentShape (sanitize_net_name "é") = false := by
  decide

/-- Auxiliary: an ASCII character accepted by the sanitizer's keep-test is an
ASCII alphanumeric or an underscore. -/
theorem ascii_keep_good (c : Char) (hc : c.toNat < 128)
    (h : (rustIsAlphanumeric c || c = '_') = true) : (c.isAlphanum || c = '_') = true := by
  simp only [rustIsAlphanumeric, rustIsAlphabetic, rustIsNumeric, Bool.or_eq_true,
    Bool.and_eq_true, decide_eq_true_eq, beq_iff_eq, bne_iff_ne, ne_eq] at h
  simp only [Char.isAlphanum, Bool.or_eq_true, decide_eq_true_eq]
  rcases h with ((((h | h) | h) | h) | h) | h
  · exact Or.inl (Or.inl h)
  · exfalso; omega
  · exfalso; omega
  · exfalso; omega
  · exact Or.inl (Or.inr h)
  · exact Or.inr h

/-- Auxiliary: an ASCII character accepted by the keep-test that is not a
digit is an ASCII letter or an underscore. -/
theorem ascii_keep_head_good (c : Char) (hc : c.toNat < 128)
    (h : (rustIsAlphanumeric c || c = '_') = true) (hnum : rustIsNumeric c = false) :
    (c.isAlpha || c = '_') = true := by
  have hgood := ascii_keep_good c hc h
  simp only [Char.isAlphanum, Bool.or_eq_true] at hgood
  simp only [rustIsNumeric] at hnum
  rcases hgood with (h2 | h2) | h2
  · simp [h2]
  · simp [hnum] at h2
  · simp [h2]

/-- Auxiliary: every character produced by the sanitizer loop on ASCII input
is an ASCII alphanumeric or an underscore. -/
theorem sanChars_all_good (l : Cs) (hl : ∀ c ∈ l, c.toNat < 128) (i : Nat) :
    ∀ d ∈ sanChars i l, (d.isAlphanum || d = '_') = true := by
  induction l generalizing i with
  | nil => intro d hd; simp [sanChars] at hd
  | cons c cs ih =>
    intro d hd
    have hc : c.toNat < 128 := hl c (List.mem_cons_self c cs)
    have hcs : ∀ x ∈ cs, x.toNat < 128 := fun x hx => hl x (List.mem_cons_of_mem c hx)
    simp only [sanChars, List.mem_append] at hd
    rcases hd with hd | hd
    · split_ifs at hd with h1 h2
      · simp only [List.mem_cons, List.mem_singleton, List.not_mem_nil, or_false] at hd
        rcases hd with hd | hd
        · subst hd; simp
        · rw [hd]; exact ascii_keep_good c hc h1
      · simp only [List.mem_singleton] at hd
        rw [hd]; exact ascii_keep_good c hc h1
      · simp only [List.mem_singleton] at hd
        subst hd; simp
    · exact ih hcs (i + 1) d hd

/-- Auxiliary: the sanitizer loop never returns an empty list on nonempty
input. -/
theorem sanChars_ne_nil (c : Char) (cs : Cs) (i : Nat) : sanChars i (c :: cs) ≠ [] := by
  simp only [sanChars]
  split_ifs <;> simp

/-- Auxiliary: the first character produced by the sanitizer loop at index 0
on ASCII input is an ASCII letter or an underscore. -/
theorem sanChars_head_good (c : Char) (cs : Cs) (hc : c.toNat < 128) :
    ∀ d, (sanChars 0 (c :: cs)).head? = some d → (d.isAlpha || d = '_') = true := by
  intro d hd
  simp only [sanChars] at hd
  split_ifs at hd with h1 h2
  · simp only [List.cons_append, List.head?_cons, Option.some.injEq] at hd
    subst hd; simp
  · simp only [List.cons_append, List.head?_cons, Option.some.injEq] at hd
    subst hd
    have hnum : rustIsNumeric c = false := by
      by_contra hx
      simp only [Bool.not_eq_false] at hx
      simp [hx] at h2
    exact ascii_keep_head_good c hc h1 hnum
  · simp only [List.cons_append, List.head?_cons, Option.some.injEq] at hd
    subst hd; simp

/-- Auxiliary: a nonempty character list whose head is a letter or underscore
and whose members are alphanumerics or underscores makes an identifier. -/
theorem matchesIdentShape_mk (b0 : Char) (l : Cs)
    (hhead : (b0.isAlpha || b0 = '_') = true)
    (hall : ∀ d ∈ l, (d.isAlphanum || d = '_') = true) :
    matchesIdentShape (String.mk (b0 :: l)) = true := by
  simp only [matchesIdentShape, Bool.and_eq_true]
  exact ⟨hhead, List.all_eq_true.mpr hall⟩

/-- Claim C6 (amended): on ASCII input the sanitizer always returns an
identifier matching `^[A-Za-z_][A-Za-z0-9_]*$` — every character that is not
alphanumeric or underscore is replaced by underscore, a leading digit gets an
underscore prefixed, a reserved-keyword collision gets a trailing underscore,
the empty name becomes `net` — and the function is deterministic. -/
theorem sanitize_net_name_ascii_identifier (s : String) (h : ∀ c ∈ s.data, c.toNat < 128) :
    matchesIdentShape (sanitize_net_name s) = true ∧
    sanitize_net_name s = sanitize_net_name s := by
  refine ⟨?_, rfl⟩
  unfold sanitize_net_name
  dsimp only
  cases hs : s.data with
  | nil => decide
  | cons c cs =>
    rw [hs] at h
    have hc : c.toNat < 128 := h c (List.mem_cons_self c cs)
    have hall : ∀ d ∈ sanChars 0 (c :: cs), (d.isAlphanum || d = '_') = true :=
      sanChars_all_good (c :: cs) h 0
    have hhead := sanChars_head_good c cs hc
    cases hb : sanChars 0 (c :: cs) with
    | nil => exact absurd hb (sanChars_ne_nil c cs 0)
    | cons b0 brest =>
      rw [hb] at hall hhead
      have hb0 : (b0.isAlpha || b0 = '_') = true := hhead b0 rfl
      by_cases hkw : (reservedKw.any fun k => lowerCs (b0 :: brest) == k) = true
      · rw [if_pos hkw]
        simp only [List.cons_append, List.isEmpty_cons, Bool.false_eq_true, if_false]
        apply matchesIdentShape_mk b0 (brest ++ ['_']) hb0
        intro d hd
        rcases List.mem_append.mp hd with hd | hd
        · exact hall d (List.mem_cons_of_mem b0 hd)
        · simp only [List.mem_singleton] at hd; rw [hd]; simp
      · rw [if_neg hkw]
        simp only [List.isEmpty_cons, Bool.false_eq_true, if_false]
        apply matchesIdentShape_mk b0 brest hb0
        intro d hd
        exact hall d (List.mem_cons_of_mem b0 hd)

/-- Witness for C6 (amended) at the name `+3V3` of the specification's
scenario A: the sanitized identifier `_3V3` matches the identifier shape. -/
theorem sanitize_net_name_ascii_identifier_witness :
    matchesIdentShape (sanitize_net_name "+3V3") = true ∧
    sanitize_net_name "+3V3" = sanitize_net_name "+3V3" :=
  sanitize_net_name_ascii_identifier "+3V3" (by decide)

/-- Claim C9: the sanitizer is not injective — the distinct names `A+B` and
`A-B` both sanitize to `A_B`, and the declaration loop then emits two
assignments to the same variable, the later alphabetical one (`A-B`)
shadowing the earlier. -/
theorem sanitize_net_name_not_injective :
    ("A+B" : String) ≠ "A-B"
  ∧ sanitize_net_name "A+B" = sanitize_net_name "A-B"
  ∧ sanitize_net_name "A+B" = "A_B"
  ∧ emit_net_declarations [("A+B", NetType.signal), ("A-B", NetType.signal)] =
      "# Nets\nA_B = Net(\"A+B\")\nA_B = Net(\"A-B\")\n\n" := by
  refine ⟨by decide, by decide, by decide, ?_⟩
  decide

/-- Project used as C4's failing input: the empty project converted in
idiomatic mode. -/
def demoProject : KicadProject :=
  { name := "demo", schematic := none, pcb := none, project := none }

/-- Claim C4: the idiomatic emitter (the mode the CLI import command uses)
emits no board-configuration block at all — its output for a project is
header, imports, aliases, nets and components only, and the text `Board(`
never appears for the empty project, although the crate's own test
(`test_emit_zen` in `src/lib.rs`) asserts `output.contains("Board(")` for
idiomatic output and the faithful mode does end with such a block. -/
theorem emit_idiomatic_lacks_board_block :
    emit_idiomatic demoProject =
      "# Auto-generated from KiCad project: demo\n# Mode: idiomatic (uses stdlib generics)\n\n# ```pcb\n# [workspace]\n# pcb-version = \"0.3\"\n# ```\n\n\n"
  ∧ infixOfCs "Board(".data (emit_idiomatic demoProject).data = false := by
  constructor
  · rfl
  · decide

/-- Claim C3: a placed symbol whose library-id is unmapped is emitted through
the generic-component fallback (conversion continues, it does not abort): the
block carries the raw library-id split into library and part name, the raw
footprint string and raw value (each when nonempty), the two population
flags, and a pin dictionary built from exactly the pads kept by the same
empty/unconnected filter as the mapped case. -/
theorem unmapped_symbol_generic_fallback (p : KicadProject) (s : SchematicSymbol)
    (h : map_symbol s.lib_id = none) :
    componentBlock (uuid_to_footprint p) s
      = emit_component_fallback s (lookupFp (uuid_to_footprint p) s.uuid)
  ∧ emit_component_fallback s (lookupFp (uuid_to_footprint p) s.uuid)
      = "# Unmapped symbol: " ++ s.lib_id ++ "\n" ++
        "Component(\n" ++
        "    name=\"" ++ s.reference ++ "\",\n" ++
        "    symbol=Symbol(library=\"" ++ (split_lib_id s.lib_id).1 ++ "\", name=\"" ++
          (split_lib_id s.lib_id).2 ++ "\"),\n" ++
        (if s.footprint == "" then "" else "    footprint=\"" ++ s.footprint ++ "\",\n") ++
        (if s.value == "" then "" else "    value=\"" ++ s.value ++ "\",\n") ++
        (if s.dnp then "    dnp=True,\n" else "") ++
        (if s.exclude_from_bom then "    skip_bom=True,\n" else "") ++
        fallbackPinsBlock (lookupFp (uuid_to_footprint p) s.uuid) ++
        ")\n" ++ "\n"
  ∧ (∀ fp : Footprint,
      fallbackPinNets fp = (fp.pads.filter padKept).map (fun pad => (pad.number, pad.net_name))) := by
  refine ⟨?_, rfl, fun fp => rfl⟩
  simp [componentBlock, h]

/-- Unmapped symbol used by the witnesses of C3 and C10. -/
def unmappedSymbol : SchematicSymbol :=
  { uuid := "symu2", lib_id := "Foo:Bar", atPos := (0, 0, 0), reference := "U1",
    value := "XC6206", footprint := "Custom:MyFootprint", dnp := false,
    exclude_from_bom := false, exclude_from_board := false, pins := [], properties := [] }

/-- Witness for C3 at a concrete unmapped symbol inside the empty project. -/
theorem unmapped_symbol_generic_fallback_witness :
    componentBlock (uuid_to_footprint demoProject) unmappedSymbol
      = emit_component_fallback unmappedSymbol
          (lookupFp (uuid_to_footprint demoProject) unmappedSymbol.uuid)
  ∧ emit_component_fallback unmappedSymbol
        (lookupFp (uuid_to_footprint demoProject) unmappedSymbol.uuid)
      = "# Unmapped symbol: " ++ unmappedSymbol.lib_id ++ "\n" ++
        "Component(\n" ++
        "    name=\"" ++ unmappedSymbol.reference ++ "\",\n" ++
        "    symbol=Symbol(library=\"" ++ (split_lib_id unmappedSymbol.lib_id).1 ++
          "\", name=\"" ++ (split_lib_id unmappedSymbol.lib_id).2 ++ "\"),\n" ++
        (if unmappedSymbol.footprint == "" then ""
         else "    footprint=\"" ++ unmappedSymbol.footprint ++ "\",\n") ++
        (if unmappedSymbol.value == "" then ""
         else "    value=\"" ++ unmappedSymbol.value ++ "\",\n") ++
        (if unmappedSymbol.dnp then "    dnp=True,\n" else "") ++
        (if unmappedSymbol.exclude_from_bom then "    skip_bom=True,\n" else "") ++
        fallbackPinsBlock (lookupFp (uuid_to_footprint demoProject) unmappedSymbol.uuid) ++
        ")\n" ++ "\n"
  ∧ (∀ fp : Footprint,
      fallbackPinNets fp = (fp.pads.filter padKept).map (fun pad => (pad.number, pad.net_name))) :=
  unmapped_symbol_generic_fallback demoProject unmappedSymbol (by decide)

/-- Claim C10: declared nets come exclusively from the PCB net table — with
no PCB layout the collected net map is empty, the net-declaration section is
empty, the symbol-to-footprint join is empty, and every component block (both
mapped and fallback) carries zero pin assignments, whatever the schematic
contains. -/
theorem no_pcb_no_nets_no_pins (p : KicadProject) (h : p.pcb = none) :
    collect_nets p = []
  ∧ emit_net_declarations (collect_nets p) = ""
  ∧ uuid_to_footprint p = []
  ∧ (∀ s : SchematicSymbol, lookupFp (uuid_to_footprint p) s.uuid = none)
  ∧ (∀ s : SchematicSymbol, ∀ info : GenericInfo,
      mappedPinLines info.pin_map (lookupFp (uuid_to_footprint p) s.uuid) = "")
  ∧ (∀ s : SchematicSymbol,
      fallbackPinsBlock (lookupFp (uuid_to_footprint p) s.uuid) = "") := by
  have hn : collect_nets p = [] := by simp [collect_nets, h]
  have hu : uuid_to_footprint p = [] := by simp [uuid_to_footprint, h]
  refine ⟨hn, by rw [hn]; rfl, hu, ?_, ?_, ?_⟩
  · intro s; rw [hu]; rfl
  · intro s info; rw [hu]; rfl
  · intro s; rw [hu]; rfl

/-- Mapped resistor symbol shared by the concrete example projects. -/
def mappedSymbolR1 : SchematicSymbol :=
  { uuid := "symu1", lib_id := "Device:R", atPos := (0, 0, 0), reference := "R1",
    value := "4k7", footprint := "Resistor_SMD:R_0402_1005Metric", dnp := false,
    exclude_from_bom := false, exclude_from_board := false, pins := [], properties := [] }

/-- Schematic with two symbols shared by the concrete example projects. -/
def twoSymbolSchematic : KicadSchematic :=
  { version := 1, uuid := "su", lib_symbols := [], symbols := [mappedSymbolR1, unmappedSymbol] }

/-- Schematic-only project used by the C10 witness: two symbols, no PCB. -/
def schOnlyProject : KicadProject :=
  { name := "schonly", schematic := some twoSymbolSchematic, pcb := none, project := none }

/-- Witness for C10 at a schematic-only project. -/
theorem no_pcb_no_nets_no_pins_witness :
    collect_nets schOnlyProject = []
  ∧ emit_net_declarations (collect_nets schOnlyProject) = ""
  ∧ uuid_to_footprint schOnlyProject = []
  ∧ (∀ s : SchematicSymbol, lookupFp (uuid_to_footprint schOnlyProject) s.uuid = none)
  ∧ (∀ s : SchematicSymbol, ∀ info : GenericInfo,
      mappedPinLines info.pin_map (lookupFp (uuid_to_footprint schOnlyProject) s.uuid) = "")
  ∧ (∀ s : SchematicSymbol,
      fallbackPinsBlock (lookupFp (uuid_to_footprint schOnlyProject) s.uuid) = "") :=
  no_pcb_no_nets_no_pins schOnlyProject (by rfl)

/-- Claim C5, counterexample: a `general` element without a `thickness` child
leaves the board thickness at 1.6, not at the claimed 0.0. -/
theorem parse_general_default_not_zero :
    parse_general [Sexpr.sym "general"] = (1.6 : ℚ) ∧ (1.6 : ℚ) ≠ 0 :=
  ⟨rfl, by norm_num⟩

/-- Claim C5 (amended): the parsers tolerate malformed and missing
sub-elements silently — position floats coerce to 0.0 and string, flag and
collection fields default to their zero values, but the board thickness
defaults to 1.6 (also when malformed), a pad's technology and shape default
to `smd` and `rect`, a pad or footprint missing its leading name token fails
its own parse (and is dropped by its caller), and the schematic symbol
parser never fails. -/
theorem parsers_lenient_defaults :
    (parse_general [Sexpr.sym "general"] = (1.6 : ℚ))
  ∧ (parse_general [Sexpr.sym "general", Sexpr.list [Sexpr.sym "thickness", Sexpr.sym "oops"]]
      = (1.6 : ℚ))
  ∧ (∀ l : List Sexpr, (parse_pad l).isOk = (l.get? 1).isSome)
  ∧ (parse_pad [Sexpr.sym "pad", Sexpr.str "1"] =
      Except.ok { number := "1", pad_type := "smd", shape := "rect", atPos := (0, 0, 0),
                  net_id := 0, net_name := "" })
  ∧ (parse_pad [Sexpr.sym "pad", Sexpr.str "1", Sexpr.sym "smd", Sexpr.sym "rect",
        Sexpr.list [Sexpr.sym "at", Sexpr.sym "x", Sexpr.sym "y"]] =
      Except.ok { number := "1", pad_type := "smd", shape := "rect", atPos := (0, 0, 0),
                  net_id := 0, net_name := "" })
  ∧ (∀ l : List Sexpr, (parse_footprint l).isOk = (l.get? 1).isSome)
  ∧ (∀ l : List Sexpr, (parse_schematic_symbol l).isOk = true)
  ∧ (parse_schematic_symbol [Sexpr.sym "symbol"] =
      Except.ok { uuid := "", lib_id := "", atPos := (0, 0, 0), reference := "", value := "",
                  footprint := "", dnp := false, exclude_from_bom := false,
                  exclude_from_board := false, pins := [], properties := [] }) := by
  refine ⟨rfl, rfl, ?_, rfl, rfl, ?_, ?_, rfl⟩
  · intro l
    unfold parse_pad
    cases l.get? 1 <;> rfl
  · intro l
    unfold parse_footprint
    cases l.get? 1 <;> rfl
  · intro l
    unfold parse_schematic_symbol
    rfl

/-- Claim C7, counterexample: a matched schematic file that reads fine but
fails to parse (root tag `foo`) aborts the whole assembly with a format
error — the aggregate is not returned, refuting that only unlistable or
unreadable files stop the operation. -/
theorem assembler_aborts_on_parse_error :
    KicadProject.parse "p" (Except.ok [⟨"a.kicad_sch", Except.ok "(foo)"⟩])
      = Except.error ConvError.formatError := by
  rfl

/-- Auxiliary: on an entry whose read and parse succeed, the assembler step
is the error-free aggregate step. -/
theorem parseStep_ok (proj : KicadProject) (e : DirEntry) (he : entryOk e = true) :
    KicadProject.parseStep proj e = Except.ok (aggregateStep proj e) := by
  unfold entryOk at he
  unfold KicadProject.parseStep aggregateStep readEntry
  split
  · rename_i heq
    rw [heq] at he
    cases hc : e.content with
    | error u => rw [hc] at he; simp at he
    | ok c =>
      rw [hc] at he
      simp only [] at he ⊢
      cases hp : schematicParseStr c with
      | ok s => simp [hp]
      | error u => rw [hp] at he; simp [Except.isOk, Except.toBool] at he
  · rename_i heq
    rw [heq] at he
    cases hc : e.content with
    | error u => rw [hc] at he; simp at he
    | ok c =>
      rw [hc] at he
      simp only [] at he ⊢
      cases hp : pcbParseStr c with
      | ok s => simp [hp]
      | error u => rw [hp] at he; simp [Except.isOk, Except.toBool] at he
  · rename_i heq
    rw [heq] at he
    cases hc : e.content with
    | error u => rw [hc] at he; simp at he
    | ok c =>
      rw [hc] at he
      simp only [] at he ⊢
      cases hp : kicadProParseStr c with
      | ok s => simp [hp]
      | error u => rw [hp] at he; simp [Except.isOk, Except.toBool] at he
  · rfl

/-- Auxiliary: the assembler fold returns the error-free aggregate when every
entry succeeds. -/
theorem parse_foldlM_ok (entries : List DirEntry) (acc : KicadProject)
    (h : ∀ e ∈ entries, entryOk e = true) :
    entries.foldlM KicadProject.parseStep acc = Except.ok (entries.foldl aggregateStep acc) := by
  induction entries generalizing acc with
  | nil => rfl
  | cons e es ih =>
    have he : entryOk e = true := h e (List.mem_cons_self e es)
    have hes : ∀ x ∈ es, entryOk x = true := fun x hx => h x (List.mem_cons_of_mem e hx)
    simp only [List.foldlM, List.foldl]
    rw [parseStep_ok acc e he]
    simpa using ih (aggregateStep acc e) hes

/-- Claim C7 (amended): the assembler stops with an I/O error when the
directory cannot be listed or a matched file cannot be read, and with a
format error when a matched file fails to parse; when every matched file
reads and parses, the aggregate is returned, with at most one file of each
recognized extension kept (last one wins) and unmatched extensions ignored. -/
theorem assembler_errors_and_aggregate :
    (∀ n : String, KicadProject.parse n (Except.error ()) = Except.error ConvError.ioError)
  ∧ (∀ n : String,
      KicadProject.parse n (Except.ok [⟨"f.kicad_pcb", Except.error ()⟩])
        = Except.error ConvError.ioError)
  ∧ (∀ n : String, ∀ entries : List DirEntry, (∀ e ∈ entries, entryOk e = true) →
      KicadProject.parse n (Except.ok entries) = Except.ok (aggregateOf n entries)) := by
  refine ⟨fun n => rfl, fun n => rfl, fun n entries h => ?_⟩
  unfold KicadProject.parse aggregateOf
  exact parse_foldlM_ok entries _ h

/-- Directory listing used by the C7 witness: an ignored unmatched entry, two
schematics (the later one wins), a PCB and a settings file. -/
def demoEntries : List DirEntry :=
  [⟨"notes.txt", Except.ok "junk"⟩,
   ⟨"a.kicad_sch", Except.ok "(kicad_sch (version 1))"⟩,
   ⟨"b.kicad_sch", Except.ok "(kicad_sch (version 2))"⟩,
   ⟨"c.kicad_pcb", Except.ok "(kicad_pcb (general (thickness 1.6)))"⟩,
   ⟨"d.kicad_pro", Except.ok "\x7b\x7d"⟩]

/-- Witness for C7 (amended) at a concrete directory: the aggregate is
returned and the second schematic (version 2) overwrote the first. -/
theorem assembler_errors_and_aggregate_witness :
    KicadProject.parse "p" (Except.ok demoEntries) = Except.ok (aggregateOf "p" demoEntries)
  ∧ (aggregateOf "p" demoEntries).schematic
      = some { version := 2, uuid := "", lib_symbols := [], symbols := [] } :=
  ⟨assembler_errors_and_aggregate.2.2 "p" demoEntries (by decide), by rfl⟩

/-!  ### Idempotence of value normalization (claim C2)

The development below proves each normalizer's outputs are fixed points of a
second normalization pass.  -/

/-- Auxiliary: the head of a `dropWhile` residue falsifies the predicate. -/
theorem dropWhile_head_false (p : Char → Bool) :
    ∀ (l : Cs) (c : Char), (l.dropWhile p).head? = some c → p c = false := by
  intro l
  induction l with
  | nil => intro c hc; simp at hc
  | cons a l ih =>
    intro c hc
    rw [List.dropWhile_cons] at hc
    split_ifs at hc with h
    · exact ih c hc
    · simp at hc
      rw [← hc]
      exact Bool.not_eq_true _ ▸ (by simpa using h)

/-- Auxiliary: `dropWhile` leaves a list whose head falsifies the predicate. -/
theorem dropWhile_of_head_false (p : Char → Bool) (l : Cs)
    (h : ∀ c, l.head? = some c → p c = false) : l.dropWhile p = l := by
  cases l with
  | nil => rfl
  | cons a l =>
    rw [List.dropWhile_cons, if_neg]
    simp [h a rfl]

/-- Auxiliary: the last element survives `dropWhile` when anything does. -/
theorem getLast?_dropWhile (p : Char → Bool) (l : Cs) (h : l.dropWhile p ≠ []) :
    (l.dropWhile p).getLast? = l.getLast? := by
  obtain ⟨t, ht⟩ := List.dropWhile_suffix (l := l) p
  conv_rhs => rw [← ht]
  rw [List.getLast?_append]
  cases hg : (l.dropWhile p).getLast? with
  | none => exact absurd (List.getLast?_eq_none_iff.mp hg) h
  | some x => simp [Option.or]

/-- Auxiliary: the head of a trimmed list is not whitespace. -/
theorem trimCs_head (l : Cs) :
    ∀ c, (trimCs l).head? = some c → c.isWhitespace = false := by
  intro c hc
  unfold trimCs at hc
  rw [List.head?_reverse] at hc
  have hne : (l.dropWhile Char.isWhitespace).reverse.dropWhile Char.isWhitespace ≠ [] := by
    intro hnil
    rw [hnil] at hc
    simp at hc
  rw [getLast?_dropWhile _ _ hne, List.getLast?_reverse] at hc
  exact dropWhile_head_false _ l c hc

/-- Auxiliary: the last element of a trimmed list is not whitespace. -/
theorem trimCs_getLast (l : Cs) :
    ∀ c, (trimCs l).getLast? = some c → c.isWhitespace = false := by
  intro c hc
  unfold trimCs at hc
  rw [List.getLast?_reverse] at hc
  exact dropWhile_head_false _ _ c hc

/-- Auxiliary: trimming is the identity on lists with clean ends. -/
theorem trimCs_of_clean (l : Cs)
    (h1 : ∀ c, l.head? = some c → c.isWhitespace = false)
    (h2 : ∀ c, l.getLast? = some c → c.isWhitespace = false) : trimCs l = l := by
  unfold trimCs
  rw [dropWhile_of_head_false _ l h1]
  rw [dropWhile_of_head_false _ l.reverse (fun c hc => h2 c (by rwa [List.head?_reverse] at hc))]
  exact List.reverse_reverse l

/-- Auxiliary: trimming is idempotent. -/
theorem trimCs_idem (l : Cs) : trimCs (trimCs l) = trimCs l :=
  trimCs_of_clean _ (trimCs_head l) (trimCs_getLast l)

/-- Auxiliary: `takeWhile` stops exactly at a satisfying block. -/
theorem takeWhile_append_block (p : Char → Bool) (d rest : Cs)
    (hd : ∀ c ∈ d, p c = true) (hr : ∀ c, rest.head? = some c → p c = false) :
    (d ++ rest).takeWhile p = d := by
  induction d with
  | nil =>
    cases rest with
    | nil => rfl
    | cons c r =>
      simp only [List.nil_append, List.takeWhile_cons]
      rw [if_neg]
      simp [hr c rfl]
  | cons a d ih =>
    simp only [List.cons_append, List.takeWhile_cons]
    rw [if_pos (hd a (List.mem_cons_self a d))]
    rw [ih (fun c hc => hd c (List.mem_cons_of_mem a hc))]

/-- Auxiliary: `dropWhile` drops exactly a satisfying block. -/
theorem dropWhile_append_block (p : Char → Bool) (d rest : Cs)
    (hd : ∀ c ∈ d, p c = true) (hr : ∀ c, rest.head? = some c → p c = false) :
    (d ++ rest).dropWhile p = rest := by
  induction d with
  | nil => exact dropWhile_of_head_false p rest hr
  | cons a d ih =>
    simp only [List.cons_append, List.dropWhile_cons]
    rw [if_pos (hd a (List.mem_cons_self a d))]
    exact ih (fun c hc => hd c (List.mem_cons_of_mem a hc))

/-- Auxiliary: `spanDigits` splits a digit block from its non-digit
continuation. -/
theorem spanDigits_append (d rest : Cs) (hd : ∀ c ∈ d, c.isDigit = true)
    (hr : ∀ c, rest.head? = some c → c.isDigit = false) :
    spanDigits (d ++ rest) = (d, rest) := by
  unfold spanDigits
  rw [takeWhile_append_block _ d rest hd hr, dropWhile_append_block _ d rest hd hr]

/-- Numeric-token shape produced by `(\d+(?:\.\d+)?)`: a digit run or two
digit runs around a dot. -/
def numShapeP (num : Cs) : Prop :=
  (num ≠ [] ∧ ∀ c ∈ num, c.isDigit = true) ∨
  (∃ d1 d2, num = d1 ++ '.' :: d2 ∧ d1 ≠ [] ∧ d2 ≠ [] ∧
    (∀ c ∈ d1, c.isDigit = true) ∧ (∀ c ∈ d2, c.isDigit = true))

/-- Auxiliary: a digit is not whitespace. -/
theorem isDigit_not_ws (c : Char) (h : c.isDigit = true) : c.isWhitespace = false := by
  by_contra hw
  simp only [Bool.not_eq_false] at hw
  have hws : ((c = ' ' ∨ c = '\t') ∨ c = '\r') ∨ c = '\n' := by
    simpa [Char.isWhitespace, decide_eq_true_eq] using hw
  rcases hws with ((rfl | rfl) | rfl) | rfl <;> exact absurd h (by decide)

/-- Auxiliary: the head of a numeric token is a digit. -/
theorem numShapeP_head (num : Cs) (h : numShapeP num) :
    ∀ c, num.head? = some c → c.isDigit = true := by
  intro c hc
  rcases h with ⟨hne, hall⟩ | ⟨d1, d2, heq, h1, _, hall1, _⟩
  · exact hall c (by cases num with | nil => simp at hc | cons a l => simp at hc; rw [hc]; simp)
  · subst heq
    cases d1 with
    | nil => exact absurd rfl h1
    | cons a l =>
      simp only [List.cons_append, List.head?_cons, Option.some.injEq] at hc
      rw [← hc]
      exact hall1 a (List.mem_cons_self a l)

/-- Auxiliary: the numeric-token matcher on a digit run followed by a
non-dot continuation. -/
theorem numTok_of_span_nodot (l num rest : Cs) (hspan : spanDigits l = (num, rest))
    (hne : num ≠ []) (hdot : ∀ c, rest.head? = some c → c ≠ '.') :
    numTok l = some (num, rest) := by
  unfold numTok
  rw [hspan]
  cases num with
  | nil => exact absurd rfl hne
  | cons a d =>
    cases rest with
    | nil => rfl
    | cons c r =>
      have hcd : c ≠ '.' := hdot c rfl
      split
      · rename_i heq
        simp at heq
      · rename_i d1 r2 heq
        exfalso
        simp only [Prod.mk.injEq, List.cons.injEq] at heq
        exact hcd heq.2.1
      · rename_i d1 r1 hcon1 hcon2 heq
        simp only [Prod.mk.injEq] at heq
        rw [← heq.1, ← heq.2]

/-- Auxiliary: the numeric-token matcher on a dotted numeric shape followed
by a non-digit continuation. -/
theorem numTok_of_span_dot (l d1 d2 rest : Cs)
    (hspan1 : spanDigits l = (d1, '.' :: (d2 ++ rest))) (h1 : d1 ≠ [])
    (hspan2 : spanDigits (d2 ++ rest) = (d2, rest)) (h2 : d2 ≠ []) :
    numTok l = some (d1 ++ '.' :: d2, rest) := by
  unfold numTok
  rw [hspan1]
  cases d1 with
  | nil => exact absurd rfl h1
  | cons a d =>
    split
    · rename_i heq
      simp at heq
    · rename_i d1a r2a hnea heqa
      simp only [Prod.mk.injEq, List.cons.injEq, true_and] at heqa
      obtain ⟨e1, e2⟩ := heqa
      rw [← e1, ← e2, hspan2]
      cases d2 with
      | nil => exact absurd rfl h2
      | cons b d2a => rfl
    · rename_i d1a r1a hcon1 hcon2 heq
      exfalso
      simp only [Prod.mk.injEq] at heq
      exact hcon2 (d2 ++ rest) (by rw [← heq.2])

/-- Auxiliary: the numeric-token matcher reads exactly a numeric shape when
the continuation starts with neither a digit nor a dot. -/
theorem numTok_append (num rest : Cs) (hs : numShapeP num)
    (hr : ∀ c, rest.head? = some c → c.isDigit = false ∧ c ≠ '.') :
    numTok (num ++ rest) = some (num, rest) := by
  rcases hs with ⟨hne, hall⟩ | ⟨d1, d2, heq, h1, h2, hall1, hall2⟩
  · exact numTok_of_span_nodot _ num rest
      (spanDigits_append num rest hall (fun c hc => (hr c hc).1)) hne
      (fun c hc => (hr c hc).2)
  · subst heq
    have hone : ∀ c, ('.' :: (d2 ++ rest)).head? = some c → c.isDigit = false := by
      intro c hc
      simp only [List.head?_cons, Option.some.injEq] at hc
      rw [← hc]; rfl
    have harr : d1 ++ '.' :: d2 ++ rest = d1 ++ '.' :: (d2 ++ rest) := by simp
    rw [harr]
    exact numTok_of_span_dot _ d1 d2 rest
      (spanDigits_append d1 _ hall1 hone) h1
      (spanDigits_append d2 rest hall2 (fun c hc => (hr c hc).1)) h2

/-- Auxiliary: a successful numeric-token read splits the input. -/
theorem numTok_concat (l num rest : Cs) (h : numTok l = some (num, rest)) :
    num ++ rest = l := by
  unfold numTok at h
  split at h
  · simp at h
  · rename_i d1 r2 hne1 heq1
    unfold spanDigits at heq1
    simp only [Prod.mk.injEq] at heq1
    split at h
    · rename_i r3 heq2
      simp only [Option.some.injEq, Prod.mk.injEq] at h
      rw [← h.1, ← h.2, ← heq1.1, ← heq1.2]
      exact List.takeWhile_append_dropWhile _ _
    · rename_i d2 r3 hcon heq2
      unfold spanDigits at heq2
      simp only [Prod.mk.injEq] at heq2
      simp only [Option.some.injEq, Prod.mk.injEq] at h
      rw [← h.1, ← h.2]
      have hr2 : d2 ++ r3 = r2 := by
        rw [← heq2.1, ← heq2.2]
        exact List.takeWhile_append_dropWhile _ _
      calc d1 ++ '.' :: d2 ++ r3
          = d1 ++ '.' :: (d2 ++ r3) := by simp
        _ = d1 ++ '.' :: r2 := by rw [hr2]
        _ = l := by rw [← heq1.1, ← heq1.2]; exact List.takeWhile_append_dropWhile _ _
  · rename_i d1 r1 hcon1 hcon2 heq1
    unfold spanDigits at heq1
    simp only [Prod.mk.injEq] at heq1
    simp only [Option.some.injEq, Prod.mk.injEq] at h
    rw [← h.1, ← h.2, ← heq1.1, ← heq1.2]
    exact List.takeWhile_append_dropWhile _ _

/-- Auxiliary: a successful numeric-token read yields a numeric shape. -/
theorem numTok_some_shape (l num rest : Cs) (h : numTok l = some (num, rest)) :
    numShapeP num := by
  unfold numTok at h
  split at h
  · simp at h
  · rename_i d1 r2 hne1 heq1
    unfold spanDigits at heq1
    simp only [Prod.mk.injEq] at heq1
    have hd1ne : d1 ≠ [] := fun hx => hne1 hx
    have hall1 : ∀ c ∈ d1, c.isDigit = true := by
      rw [← heq1.1]; exact fun c hc => List.mem_takeWhile_imp hc
    split at h
    · rename_i r3 heq2
      simp only [Option.some.injEq, Prod.mk.injEq] at h
      rw [← h.1]
      exact Or.inl ⟨hd1ne, hall1⟩
    · rename_i d2 r3 hcon heq2
      unfold spanDigits at heq2
      simp only [Prod.mk.injEq] at heq2
      simp only [Option.some.injEq, Prod.mk.injEq] at h
      rw [← h.1]
      refine Or.inr ⟨d1, d2, rfl, hd1ne, fun hx => hcon hx, hall1, ?_⟩
      rw [← heq2.1]
      exact fun c hc => List.mem_takeWhile_imp hc
  · rename_i d1 r1 hcon1 hcon2 heq1
    unfold spanDigits at heq1
    simp only [Prod.mk.injEq] at heq1
    simp only [Option.some.injEq, Prod.mk.injEq] at h
    rw [← h.1]
    exact Or.inl ⟨fun hx => hcon1 hx,
      by rw [← heq1.1]; exact fun c hc => List.mem_takeWhile_imp hc⟩

/-- Auxiliary: facts carried by a successful resistor-shorthand match. -/
theorem rShort_some (t w : Cs) (m : Char) (d : Cs)
    (h : rShort t = some (w, m, d)) :
    w ≠ [] ∧ (∀ c ∈ w, c.isDigit = true) ∧
    (m = 'k' ∨ m = 'K' ∨ m = 'm' ∨ m = 'M') ∧ (∀ c ∈ d, c.isDigit = true) := by
  unfold rShort at h
  split at h
  · simp at h
  · rename_i d1 c r2 hne heq1
    unfold spanDigits at heq1
    simp only [Prod.mk.injEq] at heq1
    split_ifs at h with hcls
    · split at h
      rename_i d2 r3 heq2
      unfold spanDigits at heq2
      simp only [Prod.mk.injEq] at heq2
      split_ifs at h with hcond
      · simp only [Option.some.injEq, Prod.mk.injEq] at h
        obtain ⟨e1, e2, e3⟩ := h
        rw [← e1, ← e2, ← e3]
        refine ⟨fun hx => hne hx, ?_, by
          have hc := hcls
          simp only [Bool.or_eq_true, decide_eq_true_eq] at hc
          tauto, ?_⟩
        · rw [← heq1.1]; exact fun x hx => List.mem_takeWhile_imp hx
        · rw [← heq2.1]; exact fun x hx => List.mem_takeWhile_imp hx
  · simp at h

/-- Auxiliary: the normalized multiplier of a shorthand match is `k` or `M`. -/
theorem multNormR_cases (m : Char) (hm : m = 'k' ∨ m = 'K' ∨ m = 'm' ∨ m = 'M') :
    multNormR m = ['k'] ∨ multNormR m = ['M'] := by
  rcases hm with rfl | rfl | rfl | rfl
  · left; rfl
  · left; rfl
  · right; rfl
  · right; rfl

/-- Auxiliary: the normalized explicit-unit capture is one of five values. -/
theorem prefNormR_cases (pc : Cs) :
    prefNormR pc = [] ∨ prefNormR pc = ['k'] ∨ prefNormR pc = ['M'] ∨
    prefNormR pc = ['G'] ∨ prefNormR pc = ['u'] := by
  cases pc with
  | nil => exact Or.inl rfl
  | cons c r =>
    simp only [prefNormR]
    split_ifs <;> simp

/-- Auxiliary: head condition for the numeric-token continuation. -/
theorem head_ok_of_cons (c : Char) (r : Cs) (h1 : c.isDigit = false) (h2 : c ≠ '.') :
    ∀ x, ((c :: r) : Cs).head? = some x → x.isDigit = false ∧ x ≠ '.' := by
  intro x hx
  simp only [List.head?_cons, Option.some.injEq] at hx
  rw [← hx]
  exact ⟨h1, h2⟩

/-- Auxiliary: append through the dotted numeric shape. -/
theorem append_dot (d1 d2 x : Cs) : (d1 ++ '.' :: d2) ++ x = d1 ++ '.' :: (d2 ++ x) := by
  simp

/-- Auxiliary: an explicit-unit resistor match carries a numeric shape. -/
theorem rExplicit_some (t num pc : Cs) (h : rExplicit t = some (num, pc)) :
    numShapeP num := by
  unfold rExplicit at h
  cases hnt : numTok t with
  | none => rw [hnt] at h; simp at h
  | some pr =>
    obtain ⟨num', r1⟩ := pr
    rw [hnt] at h
    have h' : (match dropWs r1 with
        | [] => none
        | c :: r3 =>
          if (isRUnit c && (ohmAt (dropWs r3)).isSome) = true then some (num', [c])
          else if (ohmAt (c :: r3)).isSome = true then some (num', []) else none) =
        some (num, pc) := h
    clear h
    cases hdw : dropWs r1 with
    | nil => rw [hdw] at h'; simp at h'
    | cons c r3 =>
      rw [hdw] at h'
      have h2 : (if (isRUnit c && (ohmAt (dropWs r3)).isSome) = true then some (num', [c])
          else if (ohmAt (c :: r3)).isSome = true then some (num', []) else none) =
          some (num, pc) := h'
      clear h'
      split_ifs at h2 with hc1 hc2
      · simp only [Option.some.injEq, Prod.mk.injEq] at h2
        rw [← h2.1]
        exact numTok_some_shape t num' r1 hnt
      · simp only [Option.some.injEq, Prod.mk.injEq] at h2
        rw [← h2.1]
        exact numTok_some_shape t num' r1 hnt

/-- Auxiliary: a plain resistor value is a bare numeric shape. -/
theorem rPlain_true (t : Cs) (h : rPlain t = true) :
    numShapeP t := by
  unfold rPlain at h
  cases hnt : numTok t with
  | none => rw [hnt] at h; simp at h
  | some pr =>
    obtain ⟨num, rest⟩ := pr
    rw [hnt] at h
    cases rest with
    | nil =>
      have hshape := numTok_some_shape t num [] hnt
      have hcat := numTok_concat t num [] hnt
      rw [List.append_nil] at hcat
      rw [← hcat]
      exact hshape
    | cons x xs => simp at h

/-- Auxiliary: a second resistor normalization leaves a normalized output
unchanged. -/
theorem res_reparse (num p : Cs) (hnum : numShapeP num)
    (hp : p = [] ∨ p = ['k'] ∨ p = ['M'] ∨ p = ['G'] ∨ p = ['u']) :
    normalize_resistor_value (num ++ p ++ "ohm".data) = num ++ p ++ "ohm".data := by
  rcases hp with rfl | rfl | rfl | rfl | rfl
  · -- p = []: the explicit-unit pattern with empty capture re-reads the value
    rw [List.append_nil]
    have hrest : ∀ x, (("ohm".data : Cs)).head? = some x →
        x.isDigit = false ∧ x ≠ '.' := head_ok_of_cons 'o' _ (by decide) (by decide)
    have hnt : numTok (num ++ "ohm".data) = some (num, "ohm".data) :=
      numTok_append num _ hnum hrest
    rcases hnum with ⟨hne, hall⟩ | ⟨d1, d2, heq, h1, h2, hall1, hall2⟩
    · have hspan : spanDigits (num ++ "ohm".data) = (num, "ohm".data) :=
        spanDigits_append num _ hall (fun x hx => (hrest x hx).1)
      have hrs : rShort (num ++ "ohm".data) = none := by
        unfold rShort
        rw [hspan]
        cases num with
        | nil => exact absurd rfl hne
        | cons a d => rfl
      have hre : rExplicit (num ++ "ohm".data) = some (num, []) := by
        unfold rExplicit
        rw [hnt]
        rfl
      unfold normalize_resistor_value
      rw [hrs, hre]
      have hpn : prefNormR [] = ([] : Cs) := rfl
      show num ++ prefNormR [] ++ "ohm".data = num ++ "ohm".data
      rw [hpn]
      simp
    · subst heq
      have hspan : spanDigits ((d1 ++ '.' :: d2) ++ "ohm".data) =
          (d1, '.' :: (d2 ++ "ohm".data)) := by
        rw [append_dot]
        exact spanDigits_append d1 _ hall1 (by intro x hx; simp at hx; rw [← hx]; rfl)
      have hrs : rShort ((d1 ++ '.' :: d2) ++ "ohm".data) = none := by
        unfold rShort
        rw [hspan]
        cases d1 with
        | nil => exact absurd rfl h1
        | cons a d => rfl
      have hre : rExplicit ((d1 ++ '.' :: d2) ++ "ohm".data) = some (d1 ++ '.' :: d2, []) := by
        unfold rExplicit
        rw [hnt]
        rfl
      unfold normalize_resistor_value
      rw [hrs, hre]
      have hpn : prefNormR [] = ([] : Cs) := rfl
      show (d1 ++ '.' :: d2) ++ prefNormR [] ++ "ohm".data = (d1 ++ '.' :: d2) ++ "ohm".data
      rw [hpn]
      simp
  · -- p = ['k']
    rw [List.append_assoc]
    show normalize_resistor_value (num ++ 'k' :: "ohm".data) = num ++ 'k' :: "ohm".data
    have hrest : ∀ x, (('k' :: "ohm".data) : Cs).head? = some x →
        x.isDigit = false ∧ x ≠ '.' := head_ok_of_cons _ _ (by decide) (by decide)
    have hnt : numTok (num ++ 'k' :: "ohm".data) = some (num, 'k' :: "ohm".data) :=
      numTok_append num _ hnum hrest
    rcases hnum with ⟨hne, hall⟩ | ⟨d1, d2, heq, h1, h2, hall1, hall2⟩
    · have hspan : spanDigits (num ++ 'k' :: "ohm".data) = (num, 'k' :: "ohm".data) :=
        spanDigits_append num _ hall (fun x hx => (hrest x hx).1)
      have hrs : rShort (num ++ 'k' :: "ohm".data) = some (num, 'k', []) := by
        unfold rShort
        rw [hspan]
        cases num with
        | nil => exact absurd rfl hne
        | cons a d => rfl
      unfold normalize_resistor_value
      rw [hrs]
      have hmn : multNormR 'k' = (['k'] : Cs) := rfl
      show num ++ multNormR 'k' ++ "ohm".data = num ++ 'k' :: "ohm".data
      rw [hmn]
      simp
    · subst heq
      have hspan : spanDigits ((d1 ++ '.' :: d2) ++ 'k' :: "ohm".data) =
          (d1, '.' :: (d2 ++ 'k' :: "ohm".data)) := by
        rw [append_dot]
        exact spanDigits_append d1 _ hall1 (by intro x hx; simp at hx; rw [← hx]; rfl)
      have hrs : rShort ((d1 ++ '.' :: d2) ++ 'k' :: "ohm".data) = none := by
        unfold rShort
        rw [hspan]
        cases d1 with
        | nil => exact absurd rfl h1
        | cons a d => rfl
      have hre : rExplicit ((d1 ++ '.' :: d2) ++ 'k' :: "ohm".data) =
          some (d1 ++ '.' :: d2, ['k']) := by
        unfold rExplicit
        rw [hnt]
        rfl
      unfold normalize_resistor_value
      rw [hrs, hre]
      have hpn : prefNormR ['k'] = (['k'] : Cs) := rfl
      show (d1 ++ '.' :: d2) ++ prefNormR ['k'] ++ "ohm".data = (d1 ++ '.' :: d2) ++ 'k' :: "ohm".data
      rw [hpn]
      simp
  · -- p = ['M']
    rw [List.append_assoc]
    show normalize_resistor_value (num ++ 'M' :: "ohm".data) = num ++ 'M' :: "ohm".data
    have hrest : ∀ x, (('M' :: "ohm".data) : Cs).head? = some x →
        x.isDigit = false ∧ x ≠ '.' := head_ok_of_cons _ _ (by decide) (by decide)
    have hnt : numTok (num ++ 'M' :: "ohm".data) = some (num, 'M' :: "ohm".data) :=
      numTok_append num _ hnum hrest
    rcases hnum with ⟨hne, hall⟩ | ⟨d1, d2, heq, h1, h2, hall1, hall2⟩
    · have hspan : spanDigits (num ++ 'M' :: "ohm".data) = (num, 'M' :: "ohm".data) :=
        spanDigits_append num _ hall (fun x hx => (hrest x hx).1)
      have hrs : rShort (num ++ 'M' :: "ohm".data) = some (num, 'M', []) := by
        unfold rShort
        rw [hspan]
        cases num with
        | nil => exact absurd rfl hne
        | cons a d => rfl
      unfold normalize_resistor_value
      rw [hrs]
      have hmn : multNormR 'M' = (['M'] : Cs) := rfl
      show num ++ multNormR 'M' ++ "ohm".data = num ++ 'M' :: "ohm".data
      rw [hmn]
      simp
    · subst heq
      have hspan : spanDigits ((d1 ++ '.' :: d2) ++ 'M' :: "ohm".data) =
          (d1, '.' :: (d2 ++ 'M' :: "ohm".data)) := by
        rw [append_dot]
        exact spanDigits_append d1 _ hall1 (by intro x hx; simp at hx; rw [← hx]; rfl)
      have hrs : rShort ((d1 ++ '.' :: d2) ++ 'M' :: "ohm".data) = none := by
        unfold rShort
        rw [hspan]
        cases d1 with
        | nil => exact absurd rfl h1
        | cons a d => rfl
      have hre : rExplicit ((d1 ++ '.' :: d2) ++ 'M' :: "ohm".data) =
          some (d1 ++ '.' :: d2, ['M']) := by
        unfold rExplicit
        rw [hnt]
        rfl
      unfold normalize_resistor_value
      rw [hrs, hre]
      have hpn : prefNormR ['M'] = (['M'] : Cs) := rfl
      show (d1 ++ '.' :: d2) ++ prefNormR ['M'] ++ "ohm".data = (d1 ++ '.' :: d2) ++ 'M' :: "ohm".data
      rw [hpn]
      simp
  · -- p = ['G']
    rw [List.append_assoc]
    show normalize_resistor_value (num ++ 'G' :: "ohm".data) = num ++ 'G' :: "ohm".data
    have hrest : ∀ x, (('G' :: "ohm".data) : Cs).head? = some x →
        x.isDigit = false ∧ x ≠ '.' := head_ok_of_cons _ _ (by decide) (by decide)
    have hnt : numTok (num ++ 'G' :: "ohm".data) = some (num, 'G' :: "ohm".data) :=
      numTok_append num _ hnum hrest
    rcases hnum with ⟨hne, hall⟩ | ⟨d1, d2, heq, h1, h2, hall1, hall2⟩
    · have hspan : spanDigits (num ++ 'G' :: "ohm".data) = (num, 'G' :: "ohm".data) :=
        spanDigits_append num _ hall (fun x hx => (hrest x hx).1)
      have hrs : rShort (num ++ 'G' :: "ohm".data) = none := by
        unfold rShort
        rw [hspan]
        cases num with
        | nil => exact absurd rfl hne
        | cons a d => rfl
      have hre : rExplicit (num ++ 'G' :: "ohm".data) = some (num, ['G']) := by
        unfold rExplicit
        rw [hnt]
        rfl
      unfold normalize_resistor_value
      rw [hrs, hre]
      have hpn : prefNormR ['G'] = (['G'] : Cs) := rfl
      show num ++ prefNormR ['G'] ++ "ohm".data = num ++ 'G' :: "ohm".data
      rw [hpn]
      simp
    · subst heq
      have hspan : spanDigits ((d1 ++ '.' :: d2) ++ 'G' :: "ohm".data) =
          (d1, '.' :: (d2 ++ 'G' :: "ohm".data)) := by
        rw [append_dot]
        exact spanDigits_append d1 _ hall1 (by intro x hx; simp at hx; rw [← hx]; rfl)
      have hrs : rShort ((d1 ++ '.' :: d2) ++ 'G' :: "ohm".data) = none := by
        unfold rShort
        rw [hspan]
        cases d1 with
        | nil => exact absurd rfl h1
        | cons a d => rfl
      have hre : rExplicit ((d1 ++ '.' :: d2) ++ 'G' :: "ohm".data) =
          some (d1 ++ '.' :: d2, ['G']) := by
        unfold rExplicit
        rw [hnt]
        rfl
      unfold normalize_resistor_value
      rw [hrs, hre]
      have hpn : prefNormR ['G'] = (['G'] : Cs) := rfl
      show (d1 ++ '.' :: d2) ++ prefNormR ['G'] ++ "ohm".data = (d1 ++ '.' :: d2) ++ 'G' :: "ohm".data
      rw [hpn]
      simp
  · -- p = ['u']
    rw [List.append_assoc]
    show normalize_resistor_value (num ++ 'u' :: "ohm".data) = num ++ 'u' :: "ohm".data
    have hrest : ∀ x, (('u' :: "ohm".data) : Cs).head? = some x →
        x.isDigit = false ∧ x ≠ '.' := head_ok_of_cons _ _ (by decide) (by decide)
    have hnt : numTok (num ++ 'u' :: "ohm".data) = some (num, 'u' :: "ohm".data) :=
      numTok_append num _ hnum hrest
    rcases hnum with ⟨hne, hall⟩ | ⟨d1, d2, heq, h1, h2, hall1, hall2⟩
    · have hspan : spanDigits (num ++ 'u' :: "ohm".data) = (num, 'u' :: "ohm".data) :=
        spanDigits_append num _ hall (fun x hx => (hrest x hx).1)
      have hrs : rShort (num ++ 'u' :: "ohm".data) = none := by
        unfold rShort
        rw [hspan]
        cases num with
        | nil => exact absurd rfl hne
        | cons a d => rfl
      have hre : rExplicit (num ++ 'u' :: "ohm".data) = some (num, ['u']) := by
        unfold rExplicit
        rw [hnt]
        rfl
      unfold normalize_resistor_value
      rw [hrs, hre]
      have hpn : prefNormR ['u'] = (['u'] : Cs) := rfl
      show num ++ prefNormR ['u'] ++ "ohm".data = num ++ 'u' :: "ohm".data
      rw [hpn]
      simp
    · subst heq
      have hspan : spanDigits ((d1 ++ '.' :: d2) ++ 'u' :: "ohm".data) =
          (d1, '.' :: (d2 ++ 'u' :: "ohm".data)) := by
        rw [append_dot]
        exact spanDigits_append d1 _ hall1 (by intro x hx; simp at hx; rw [← hx]; rfl)
      have hrs : rShort ((d1 ++ '.' :: d2) ++ 'u' :: "ohm".data) = none := by
        unfold rShort
        rw [hspan]
        cases d1 with
        | nil => exact absurd rfl h1
        | cons a d => rfl
      have hre : rExplicit ((d1 ++ '.' :: d2) ++ 'u' :: "ohm".data) =
          some (d1 ++ '.' :: d2, ['u']) := by
        unfold rExplicit
        rw [hnt]
        rfl
      unfold normalize_resistor_value
      rw [hrs, hre]
      have hpn : prefNormR ['u'] = (['u'] : Cs) := rfl
      show (d1 ++ '.' :: d2) ++ prefNormR ['u'] ++ "ohm".data = (d1 ++ '.' :: d2) ++ 'u' :: "ohm".data
      rw [hpn]
      simp

/-- Auxiliary: a nonempty list keeps its head across an append. -/
theorem head_append_left (l r : Cs) (h : l ≠ []) : (l ++ r).head? = l.head? := by
  cases l with
  | nil => exact absurd rfl h
  | cons a t => rfl

/-- Auxiliary: a numeric shape is nonempty. -/
theorem numShapeP_ne (num : Cs) (h : numShapeP num) : num ≠ [] := by
  rcases h with ⟨hne, _⟩ | ⟨d1, d2, heq, _, _, _, _⟩
  · exact hne
  · rw [heq]
    simp

/-- Auxiliary: whitespace trim fixes a normalized output, a numeric part
followed by a unit tail. -/
theorem trim_fixed_shaped (num mid : Cs) (hs : numShapeP num) (tail : Cs) (c : Char)
    (hlast : tail.getLast? = some c) (hcw : c.isWhitespace = false) :
    trimCs (num ++ mid ++ tail) = num ++ mid ++ tail := by
  apply trimCs_of_clean
  · intro x hx
    rw [head_append_left _ _ (by
      intro hnil
      exact numShapeP_ne num hs (List.append_eq_nil.mp hnil).1)] at hx
    rw [head_append_left _ _ (numShapeP_ne num hs)] at hx
    exact isDigit_not_ws x (numShapeP_head num hs x hx)
  · intro x hx
    rw [List.getLast?_append, hlast] at hx
    have hcx : some c = some x := hx
    simp only [Option.some.injEq] at hcx
    rw [← hcx]
    exact hcw

/-- Auxiliary: trim fixes every resistor normalization of a trimmed input. -/
theorem res_out_clean (t : Cs) (ht : trimCs t = t) :
    trimCs (normalize_resistor_value t) = normalize_resistor_value t := by
  cases hrs : rShort t with
  | some wmd =>
    obtain ⟨w, m, d⟩ := wmd
    obtain ⟨hw, hwd, hm, hdd⟩ := rShort_some t w m d hrs
    cases d with
    | nil =>
      have ho : normalize_resistor_value t = w ++ multNormR m ++ "ohm".data := by
        unfold normalize_resistor_value
        rw [hrs]
        rfl
      rw [ho]
      exact trim_fixed_shaped w (multNormR m) (Or.inl ⟨hw, hwd⟩) "ohm".data 'm' rfl (by decide)
    | cons x xs =>
      have ho : normalize_resistor_value t =
          (w ++ '.' :: (x :: xs)) ++ multNormR m ++ "ohm".data := by
        unfold normalize_resistor_value
        rw [hrs]
        rfl
      rw [ho]
      exact trim_fixed_shaped (w ++ '.' :: (x :: xs)) (multNormR m)
        (Or.inr ⟨w, x :: xs, rfl, hw, List.cons_ne_nil x xs, hwd, hdd⟩)
        "ohm".data 'm' rfl (by decide)
  | none =>
    cases hre : rExplicit t with
    | some np =>
      obtain ⟨num, pc⟩ := np
      have hsh := rExplicit_some t num pc hre
      have ho : normalize_resistor_value t = num ++ prefNormR pc ++ "ohm".data := by
        unfold normalize_resistor_value
        rw [hrs, hre]
      rw [ho]
      exact trim_fixed_shaped num (prefNormR pc) hsh "ohm".data 'm' rfl (by decide)
    | none =>
      by_cases hp : rPlain t = true
      · have hsh := rPlain_true t hp
        have ho : normalize_resistor_value t = t ++ "ohm".data := by
          unfold normalize_resistor_value
          rw [hrs, hre, if_pos hp]
        rw [ho]
        have := trim_fixed_shaped t [] hsh "ohm".data 'm' rfl (by decide)
        rwa [List.append_nil] at this
      · have ho : normalize_resistor_value t = t := by
          unfold normalize_resistor_value
          rw [hrs, hre, if_neg hp]
        rw [ho]
        exact ht

/-- Auxiliary: the fixed-point theorem for resistor normalization. -/
theorem res_fix (t : Cs) :
    normalize_resistor_value (normalize_resistor_value t) = normalize_resistor_value t := by
  cases hrs : rShort t with
  | some wmd =>
    obtain ⟨w, m, d⟩ := wmd
    obtain ⟨hw, hwd, hm, hdd⟩ := rShort_some t w m d hrs
    have hmc := multNormR_cases m hm
    cases d with
    | nil =>
      have ho : normalize_resistor_value t = w ++ multNormR m ++ "ohm".data := by
        unfold normalize_resistor_value
        rw [hrs]
        rfl
      rw [ho]
      exact res_reparse w (multNormR m) (Or.inl ⟨hw, hwd⟩)
        (by rcases hmc with h | h <;> rw [h] <;> tauto)
    | cons x xs =>
      have ho : normalize_resistor_value t =
          (w ++ '.' :: (x :: xs)) ++ multNormR m ++ "ohm".data := by
        unfold normalize_resistor_value
        rw [hrs]
        rfl
      rw [ho]
      exact res_reparse (w ++ '.' :: (x :: xs)) (multNormR m)
        (Or.inr ⟨w, x :: xs, rfl, hw, List.cons_ne_nil x xs, hwd, hdd⟩)
        (by rcases hmc with h | h <;> rw [h] <;> tauto)
  | none =>
    cases hre : rExplicit t with
    | some np =>
      obtain ⟨num, pc⟩ := np
      have hsh := rExplicit_some t num pc hre
      have hpc := prefNormR_cases pc
      have ho : normalize_resistor_value t = num ++ prefNormR pc ++ "ohm".data := by
        unfold normalize_resistor_value
        rw [hrs, hre]
      rw [ho]
      exact res_reparse num (prefNormR pc) hsh hpc
    | none =>
      by_cases hp : rPlain t = true
      · have hsh := rPlain_true t hp
        have ho : normalize_resistor_value t = t ++ "ohm".data := by
          unfold normalize_resistor_value
          rw [hrs, hre, if_pos hp]
        rw [ho]
        have := res_reparse t [] hsh (Or.inl rfl)
        rwa [List.append_nil] at this
      · have ho : normalize_resistor_value t = t := by
          unfold normalize_resistor_value
          rw [hrs, hre, if_neg hp]
        rw [ho, ho]

/-- Auxiliary: a capacitor shorthand match carries a numeric
shape and a unit letter of the class. -/
theorem capShort_some (t num : Cs) (c : Char) (h : capShort t = some (num, c)) :
    numShapeP num ∧ isCapUnit c = true := by
  unfold capShort at h
  cases hnt : numTok t with
  | none => rw [hnt] at h; simp at h
  | some pr =>
    obtain ⟨num', r1⟩ := pr
    rw [hnt] at h
    have h' : (match dropWs r1 with
        | [] => none
        | c' :: r2 =>
          if isCapUnit c' = true then
            match r2 with
            | [] => some (num', c')
            | [f] => if f.toLower = 'f' then some (num', c') else none
            | _ => none
          else none) = some (num, c) := h
    clear h
    cases hdw : dropWs r1 with
    | nil => rw [hdw] at h'; simp at h'
    | cons c' r2 =>
      rw [hdw] at h'
      have h2 : (if isCapUnit c' = true then
          (match r2 with
            | [] => some (num', c')
            | [f] => if f.toLower = 'f' then some (num', c') else none
            | _ => none)
          else none) = some (num, c) := h'
      clear h'
      split_ifs at h2 with hcu
      cases r2 with
      | nil =>
        have h3 : (some (num', c') : Option (Cs × Char)) = some (num, c) := h2
        simp only [Option.some.injEq, Prod.mk.injEq] at h3
        obtain ⟨e1, e2⟩ := h3
        rw [← e1, ← e2]
        exact ⟨numTok_some_shape t num' r1 hnt, hcu⟩
      | cons f r3 =>
        cases r3 with
        | nil =>
          have h3 : (if f.toLower = 'f' then some (num', c') else none) = some (num, c) := h2
          split_ifs at h3 with hf
          simp only [Option.some.injEq, Prod.mk.injEq] at h3
          obtain ⟨e1, e2⟩ := h3
          rw [← e1, ← e2]
          exact ⟨numTok_some_shape t num' r1 hnt, hcu⟩
        | cons g r4 =>
          have h3 : (none : Option (Cs × Char)) = some (num, c) := h2
          simp at h3

/-- Auxiliary: a inductor shorthand match carries a numeric
shape and a unit letter of the class. -/
theorem indShort_some (t num : Cs) (c : Char) (h : indShort t = some (num, c)) :
    numShapeP num ∧ isCapUnit c = true := by
  unfold indShort at h
  cases hnt : numTok t with
  | none => rw [hnt] at h; simp at h
  | some pr =>
    obtain ⟨num', r1⟩ := pr
    rw [hnt] at h
    have h' : (match dropWs r1 with
        | [] => none
        | c' :: r2 =>
          if isCapUnit c' = true then
            match r2 with
            | [] => some (num', c')
            | [f] => if f.toLower = 'h' then some (num', c') else none
            | _ => none
          else none) = some (num, c) := h
    clear h
    cases hdw : dropWs r1 with
    | nil => rw [hdw] at h'; simp at h'
    | cons c' r2 =>
      rw [hdw] at h'
      have h2 : (if isCapUnit c' = true then
          (match r2 with
            | [] => some (num', c')
            | [f] => if f.toLower = 'h' then some (num', c') else none
            | _ => none)
          else none) = some (num, c) := h'
      clear h'
      split_ifs at h2 with hcu
      cases r2 with
      | nil =>
        have h3 : (some (num', c') : Option (Cs × Char)) = some (num, c) := h2
        simp only [Option.some.injEq, Prod.mk.injEq] at h3
        obtain ⟨e1, e2⟩ := h3
        rw [← e1, ← e2]
        exact ⟨numTok_some_shape t num' r1 hnt, hcu⟩
      | cons f r3 =>
        cases r3 with
        | nil =>
          have h3 : (if f.toLower = 'h' then some (num', c') else none) = some (num, c) := h2
          split_ifs at h3 with hf
          simp only [Option.some.injEq, Prod.mk.injEq] at h3
          obtain ⟨e1, e2⟩ := h3
          rw [← e1, ← e2]
          exact ⟨numTok_some_shape t num' r1 hnt, hcu⟩
        | cons g r4 =>
          have h3 : (none : Option (Cs × Char)) = some (num, c) := h2
          simp at h3

/-- Auxiliary: a capacitor explicit-unit match carries a numeric shape and a
unit letter of the class. -/
theorem capExpl_some (t num : Cs) (c : Char) (h : capExpl t = some (num, c)) :
    numShapeP num ∧ isCapUnit c = true := by
  unfold capExpl at h
  cases hnt : numTok t with
  | none => rw [hnt] at h; simp at h
  | some pr =>
    obtain ⟨num', r1⟩ := pr
    rw [hnt] at h
    have h' : (match dropWs r1 with
        | c' :: f :: r2 =>
          if (isCapUnit c' && f.toLower = 'f') = true then some (num', c') else none
        | _ => none) = some (num, c) := h
    clear h
    cases hdw : dropWs r1 with
    | nil => rw [hdw] at h'; simp at h'
    | cons c' r2 =>
      rw [hdw] at h'
      cases r2 with
      | nil =>
        have h3 : (none : Option (Cs × Char)) = some (num, c) := h'
        simp at h3
      | cons f r3 =>
        have h3 : (if (isCapUnit c' && f.toLower = 'f') = true then some (num', c')
            else none) = some (num, c) := h'
        split_ifs at h3 with hb
        rw [Bool.and_eq_true] at hb
        simp only [Option.some.injEq, Prod.mk.injEq] at h3
        obtain ⟨e1, e2⟩ := h3
        rw [← e1, ← e2]
        exact ⟨numTok_some_shape t num' r1 hnt, hb.1⟩

/-- Auxiliary: the normalized capacitor or inductor prefix of a class letter
is one of the four lowercase metric prefixes. -/
theorem capPrefNorm_cases (c : Char) (h : isCapUnit c = true) :
    capPrefNorm c = ['p'] ∨ capPrefNorm c = ['n'] ∨ capPrefNorm c = ['u'] ∨
    capPrefNorm c = ['m'] := by
  unfold capPrefNorm
  split_ifs with h1 h2 h3 h4
  · tauto
  · tauto
  · tauto
  · tauto
  · exfalso
    unfold isCapUnit at h
    simp only [Bool.or_eq_true, decide_eq_true_eq] at h h3
    tauto

/-- Auxiliary: a second capacitor normalization leaves a normalized output unchanged. -/
theorem cap_reparse (num : Cs) (c : Char) (hnum : numShapeP num)
    (hc : c = 'p' ∨ c = 'n' ∨ c = 'u' ∨ c = 'm') :
    normalize_capacitor_value (num ++ [c] ++ ['F']) = num ++ [c] ++ ['F'] := by
  rcases hc with rfl | rfl | rfl | rfl
  · rw [List.append_assoc]
    show normalize_capacitor_value (num ++ 'p' :: ['F']) = num ++ 'p' :: ['F']
    have hnt : numTok (num ++ 'p' :: ['F']) = some (num, 'p' :: ['F']) :=
      numTok_append num _ hnum (head_ok_of_cons _ _ (by decide) (by decide))
    have hcs : capShort (num ++ 'p' :: ['F']) = some (num, 'p') := by
      unfold capShort
      rw [hnt]
      rfl
    unfold normalize_capacitor_value
    rw [hcs]
    have hpn : capPrefNorm 'p' = (['p'] : Cs) := rfl
    show num ++ capPrefNorm 'p' ++ ['F'] = num ++ 'p' :: ['F']
    rw [hpn]
    simp
  · rw [List.append_assoc]
    show normalize_capacitor_value (num ++ 'n' :: ['F']) = num ++ 'n' :: ['F']
    have hnt : numTok (num ++ 'n' :: ['F']) = some (num, 'n' :: ['F']) :=
      numTok_append num _ hnum (head_ok_of_cons _ _ (by decide) (by decide))
    have hcs : capShort (num ++ 'n' :: ['F']) = some (num, 'n') := by
      unfold capShort
      rw [hnt]
      rfl
    unfold normalize_capacitor_value
    rw [hcs]
    have hpn : capPrefNorm 'n' = (['n'] : Cs) := rfl
    show num ++ capPrefNorm 'n' ++ ['F'] = num ++ 'n' :: ['F']
    rw [hpn]
    simp
  · rw [List.append_assoc]
    show normalize_capacitor_value (num ++ 'u' :: ['F']) = num ++ 'u' :: ['F']
    have hnt : numTok (num ++ 'u' :: ['F']) = some (num, 'u' :: ['F']) :=
      numTok_append num _ hnum (head_ok_of_cons _ _ (by decide) (by decide))
    have hcs : capShort (num ++ 'u' :: ['F']) = some (num, 'u') := by
      unfold capShort
      rw [hnt]
      rfl
    unfold normalize_capacitor_value
    rw [hcs]
    have hpn : capPrefNorm 'u' = (['u'] : Cs) := rfl
    show num ++ capPrefNorm 'u' ++ ['F'] = num ++ 'u' :: ['F']
    rw [hpn]
    simp
  · rw [List.append_assoc]
    show normalize_capacitor_value (num ++ 'm' :: ['F']) = num ++ 'm' :: ['F']
    have hnt : numTok (num ++ 'm' :: ['F']) = some (num, 'm' :: ['F']) :=
      numTok_append num _ hnum (head_ok_of_cons _ _ (by decide) (by decide))
    have hcs : capShort (num ++ 'm' :: ['F']) = some (num, 'm') := by
      unfold capShort
      rw [hnt]
      rfl
    unfold normalize_capacitor_value
    rw [hcs]
    have hpn : capPrefNorm 'm' = (['m'] : Cs) := rfl
    show num ++ capPrefNorm 'm' ++ ['F'] = num ++ 'm' :: ['F']
    rw [hpn]
    simp

/-- Auxiliary: a second inductor normalization leaves a normalized output unchanged. -/
theorem ind_reparse (num : Cs) (c : Char) (hnum : numShapeP num)
    (hc : c = 'p' ∨ c = 'n' ∨ c = 'u' ∨ c = 'm') :
    normalize_inductor_value (num ++ [c] ++ ['H']) = num ++ [c] ++ ['H'] := by
  rcases hc with rfl | rfl | rfl | rfl
  · rw [List.append_assoc]
    show normalize_inductor_value (num ++ 'p' :: ['H']) = num ++ 'p' :: ['H']
    have hnt : numTok (num ++ 'p' :: ['H']) = some (num, 'p' :: ['H']) :=
      numTok_append num _ hnum (head_ok_of_cons _ _ (by decide) (by decide))
    have hcs : indShort (num ++ 'p' :: ['H']) = some (num, 'p') := by
      unfold indShort
      rw [hnt]
      rfl
    unfold normalize_inductor_value
    rw [hcs]
    have hpn : capPrefNorm 'p' = (['p'] : Cs) := rfl
    show num ++ capPrefNorm 'p' ++ ['H'] = num ++ 'p' :: ['H']
    rw [hpn]
    simp
  · rw [List.append_assoc]
    show normalize_inductor_value (num ++ 'n' :: ['H']) = num ++ 'n' :: ['H']
    have hnt : numTok (num ++ 'n' :: ['H']) = some (num, 'n' :: ['H']) :=
      numTok_append num _ hnum (head_ok_of_cons _ _ (by decide) (by decide))
    have hcs : indShort (num ++ 'n' :: ['H']) = some (num, 'n') := by
      unfold indShort
      rw [hnt]
      rfl
    unfold normalize_inductor_value
    rw [hcs]
    have hpn : capPrefNorm 'n' = (['n'] : Cs) := rfl
    show num ++ capPrefNorm 'n' ++ ['H'] = num ++ 'n' :: ['H']
    rw [hpn]
    simp
  · rw [List.append_assoc]
    show normalize_inductor_value (num ++ 'u' :: ['H']) = num ++ 'u' :: ['H']
    have hnt : numTok (num ++ 'u' :: ['H']) = some (num, 'u' :: ['H']) :=
      numTok_append num _ hnum (head_ok_of_cons _ _ (by decide) (by decide))
    have hcs : indShort (num ++ 'u' :: ['H']) = some (num, 'u') := by
      unfold indShort
      rw [hnt]
      rfl
    unfold normalize_inductor_value
    rw [hcs]
    have hpn : capPrefNorm 'u' = (['u'] : Cs) := rfl
    show num ++ capPrefNorm 'u' ++ ['H'] = num ++ 'u' :: ['H']
    rw [hpn]
    simp
  · rw [List.append_assoc]
    show normalize_inductor_value (num ++ 'm' :: ['H']) = num ++ 'm' :: ['H']
    have hnt : numTok (num ++ 'm' :: ['H']) = some (num, 'm' :: ['H']) :=
      numTok_append num _ hnum (head_ok_of_cons _ _ (by decide) (by decide))
    have hcs : indShort (num ++ 'm' :: ['H']) = some (num, 'm') := by
      unfold indShort
      rw [hnt]
      rfl
    unfold normalize_inductor_value
    rw [hcs]
    have hpn : capPrefNorm 'm' = (['m'] : Cs) := rfl
    show num ++ capPrefNorm 'm' ++ ['H'] = num ++ 'm' :: ['H']
    rw [hpn]
    simp

/-- Auxiliary: trim fixes every capacitor normalization of a trimmed input. -/
theorem cap_out_clean (t : Cs) (ht : trimCs t = t) :
    trimCs (normalize_capacitor_value t) = normalize_capacitor_value t := by
  cases hcs : capShort t with
  | some nc =>
    obtain ⟨num, c⟩ := nc
    obtain ⟨hsh, _⟩ := capShort_some t num c hcs
    have ho : normalize_capacitor_value t = num ++ capPrefNorm c ++ ['F'] := by
      unfold normalize_capacitor_value
      rw [hcs]
    rw [ho]
    exact trim_fixed_shaped num (capPrefNorm c) hsh ['F'] 'F' rfl (by decide)
  | none =>
    cases hce : capExpl t with
    | some nc =>
      obtain ⟨num, c⟩ := nc
      obtain ⟨hsh, _⟩ := capExpl_some t num c hce
      have ho : normalize_capacitor_value t = num ++ capPrefNorm c ++ ['F'] := by
        unfold normalize_capacitor_value
        rw [hcs, hce]
      rw [ho]
      exact trim_fixed_shaped num (capPrefNorm c) hsh ['F'] 'F' rfl (by decide)
    | none =>
      have ho : normalize_capacitor_value t = t := by
        unfold normalize_capacitor_value
        rw [hcs, hce]
      rw [ho]
      exact ht

/-- Auxiliary: trim fixes every inductor normalization of a trimmed input. -/
theorem ind_out_clean (t : Cs) (ht : trimCs t = t) :
    trimCs (normalize_inductor_value t) = normalize_inductor_value t := by
  cases his : indShort t with
  | some nc =>
    obtain ⟨num, c⟩ := nc
    obtain ⟨hsh, _⟩ := indShort_some t num c his
    have ho : normalize_inductor_value t = num ++ capPrefNorm c ++ ['H'] := by
      unfold normalize_inductor_value
      rw [his]
    rw [ho]
    exact trim_fixed_shaped num (capPrefNorm c) hsh ['H'] 'H' rfl (by decide)
  | none =>
    have ho : normalize_inductor_value t = t := by
      unfold normalize_inductor_value
      rw [his]
    rw [ho]
    exact ht

/-- Auxiliary: the fixed-point theorem for capacitor normalization. -/
theorem cap_fix (t : Cs) :
    normalize_capacitor_value (normalize_capacitor_value t) =
      normalize_capacitor_value t := by
  cases hcs : capShort t with
  | some nc =>
    obtain ⟨num, c⟩ := nc
    obtain ⟨hsh, hcu⟩ := capShort_some t num c hcs
    have ho : normalize_capacitor_value t = num ++ capPrefNorm c ++ ['F'] := by
      unfold normalize_capacitor_value
      rw [hcs]
    rw [ho]
    rcases capPrefNorm_cases c hcu with h | h | h | h
    · rw [h]; exact cap_reparse num 'p' hsh (Or.inl rfl)
    · rw [h]; exact cap_reparse num 'n' hsh (Or.inr (Or.inl rfl))
    · rw [h]; exact cap_reparse num 'u' hsh (Or.inr (Or.inr (Or.inl rfl)))
    · rw [h]; exact cap_reparse num 'm' hsh (Or.inr (Or.inr (Or.inr rfl)))
  | none =>
    cases hce : capExpl t with
    | some nc =>
      obtain ⟨num, c⟩ := nc
      obtain ⟨hsh, hcu⟩ := capExpl_some t num c hce
      have ho : normalize_capacitor_value t = num ++ capPrefNorm c ++ ['F'] := by
        unfold normalize_capacitor_value
        rw [hcs, hce]
      rw [ho]
      rcases capPrefNorm_cases c hcu with h | h | h | h
      · rw [h]; exact cap_reparse num 'p' hsh (Or.inl rfl)
      · rw [h]; exact cap_reparse num 'n' hsh (Or.inr (Or.inl rfl))
      · rw [h]; exact cap_reparse num 'u' hsh (Or.inr (Or.inr (Or.inl rfl)))
      · rw [h]; exact cap_reparse num 'm' hsh (Or.inr (Or.inr (Or.inr rfl)))
    | none =>
      have ho : normalize_capacitor_value t = t := by
        unfold normalize_capacitor_value
        rw [hcs, hce]
      rw [ho, ho]

/-- Auxiliary: the fixed-point theorem for inductor normalization. -/
theorem ind_fix (t : Cs) :
    normalize_inductor_value (normalize_inductor_value t) =
      normalize_inductor_value t := by
  cases his : indShort t with
  | some nc =>
    obtain ⟨num, c⟩ := nc
    obtain ⟨hsh, hcu⟩ := indShort_some t num c his
    have ho : normalize_inductor_value t = num ++ capPrefNorm c ++ ['H'] := by
      unfold normalize_inductor_value
      rw [his]
    rw [ho]
    rcases capPrefNorm_cases c hcu with h | h | h | h
    · rw [h]; exact ind_reparse num 'p' hsh (Or.inl rfl)
    · rw [h]; exact ind_reparse num 'n' hsh (Or.inr (Or.inl rfl))
    · rw [h]; exact ind_reparse num 'u' hsh (Or.inr (Or.inr (Or.inl rfl)))
    · rw [h]; exact ind_reparse num 'm' hsh (Or.inr (Or.inr (Or.inr rfl)))
  | none =>
    have ho : normalize_inductor_value t = t := by
      unfold normalize_inductor_value
      rw [his]
    rw [ho, ho]

/-- Auxiliary: the character data of a constructed string. -/
theorem data_mk (l : Cs) : (String.mk l).data = l := rfl

/-- Auxiliary: unfolding equation of the value normalizer. -/
theorem normalize_value_eq (value : String) (k : ComponentType) :
    normalize_value value k =
      if looks_like_mpn (trimCs value.data) then String.mk (trimCs value.data)
      else
        match k with
        | ComponentType.resistor => String.mk (normalize_resistor_value (trimCs value.data))
        | ComponentType.capacitor => String.mk (normalize_capacitor_value (trimCs value.data))
        | ComponentType.inductor => String.mk (normalize_inductor_value (trimCs value.data))
        | ComponentType.other => String.mk (trimCs value.data) := rfl

/-- C2: value normalization is idempotent: for every value string `v` and
every component kind `k` (resistor, capacitor, inductor, other),
`normalize_value (normalize_value v k) k = normalize_value v k`. -/
theorem normalize_value_idempotent (v : String) (k : ComponentType) :
    normalize_value (normalize_value v k) k = normalize_value v k := by
  have ht : trimCs (trimCs v.data) = trimCs v.data := trimCs_idem v.data
  by_cases hm : looks_like_mpn (trimCs v.data) = true
  · have h1 : normalize_value v k = String.mk (trimCs v.data) := by
      rw [normalize_value_eq, if_pos hm]
    rw [h1, normalize_value_eq, data_mk, ht, if_pos hm]
  · cases k with
    | resistor =>
      have h1 : normalize_value v ComponentType.resistor = String.mk (normalize_resistor_value (trimCs v.data)) := by
        rw [normalize_value_eq, if_neg hm]
      have hclean : trimCs (normalize_resistor_value (trimCs v.data)) = normalize_resistor_value (trimCs v.data) := res_out_clean (trimCs v.data) ht
      rw [h1, normalize_value_eq, data_mk, hclean]
      by_cases hm2 : looks_like_mpn (normalize_resistor_value (trimCs v.data)) = true
      · rw [if_pos hm2]
      · rw [if_neg hm2]
        show String.mk (normalize_resistor_value (normalize_resistor_value (trimCs v.data))) = String.mk (normalize_resistor_value (trimCs v.data))
        exact congrArg String.mk (res_fix (trimCs v.data))
    | capacitor =>
      have h1 : normalize_value v ComponentType.capacitor = String.mk (normalize_capacitor_value (trimCs v.data)) := by
        rw [normalize_value_eq, if_neg hm]
      have hclean : trimCs (normalize_capacitor_value (trimCs v.data)) = normalize_capacitor_value (trimCs v.data) := cap_out_clean (trimCs v.data) ht
      rw [h1, normalize_value_eq, data_mk, hclean]
      by_cases hm2 : looks_like_mpn (normalize_capacitor_value (trimCs v.data)) = true
      · rw [if_pos hm2]
      · rw [if_neg hm2]
        show String.mk (normalize_capacitor_value (normalize_capacitor_value (trimCs v.data))) = String.mk (normalize_capacitor_value (trimCs v.data))
        exact congrArg String.mk (cap_fix (trimCs v.data))
    | inductor =>
      have h1 : normalize_value v ComponentType.inductor = String.mk (normalize_inductor_value (trimCs v.data)) := by
        rw [normalize_value_eq, if_neg hm]
      have hclean : trimCs (normalize_inductor_value (trimCs v.data)) = normalize_inductor_value (trimCs v.data) := ind_out_clean (trimCs v.data) ht
      rw [h1, normalize_value_eq, data_mk, hclean]
      by_cases hm2 : looks_like_mpn (normalize_inductor_value (trimCs v.data)) = true
      · rw [if_pos hm2]
      · rw [if_neg hm2]
        show String.mk (normalize_inductor_value (normalize_inductor_value (trimCs v.data))) = String.mk (normalize_inductor_value (trimCs v.data))
        exact congrArg String.mk (ind_fix (trimCs v.data))
    | other =>
      have h1 : normalize_value v ComponentType.other = String.mk (trimCs v.data) := by
        rw [normalize_value_eq, if_neg hm]
      rw [h1, normalize_value_eq, data_mk, ht, if_neg hm]

/-- Auxiliary: unfolding of the lexicographic comparison on cons cells. -/
theorem strLeB_cons_iff (a b : Char) (as_ bs : Cs) :
    strLeB (a :: as_) (b :: bs) = true ↔ a < b ∨ (a = b ∧ strLeB as_ bs = true) := by
  simp only [strLeB]
  split_ifs with h1 h2
  · simp [h1]
  · constructor
    · intro h
      exact absurd h (by simp)
    · rintro (h | ⟨rfl, _⟩)
      · exact absurd h h1
      · exact absurd h2 (lt_irrefl a)
  · have hab : a = b := le_antisymm (not_lt.mp h2) (not_lt.mp h1)
    simp [hab]

/-- Auxiliary: the emitter's string order is total. -/
theorem strLeB_total (x y : Cs) : strLeB x y = true ∨ strLeB y x = true := by
  induction x generalizing y with
  | nil => left; rfl
  | cons a as_ ih =>
    cases y with
    | nil => right; rfl
    | cons b bs =>
      rcases lt_trichotomy a b with h | h | h
      · left; rw [strLeB_cons_iff]; exact Or.inl h
      · rcases ih bs with h2 | h2
        · left; rw [strLeB_cons_iff]; exact Or.inr ⟨h, h2⟩
        · right; rw [strLeB_cons_iff]; exact Or.inr ⟨h.symm, h2⟩
      · right; rw [strLeB_cons_iff]; exact Or.inl h

/-- Auxiliary: the emitter's string order is transitive. -/
theorem strLeB_trans (x : Cs) : ∀ y z : Cs, strLeB x y = true → strLeB y z = true →
    strLeB x z = true := by
  induction x with
  | nil => intro y z _ _; rfl
  | cons a as_ ih =>
    intro y z h1 h2
    cases y with
    | nil => simp [strLeB] at h1
    | cons b bs =>
      cases z with
      | nil => simp [strLeB] at h2
      | cons c cs =>
        rw [strLeB_cons_iff] at h1 h2 ⊢
        rcases h1 with hab | ⟨rfl, h1m⟩
        · rcases h2 with hbc | ⟨rfl, _⟩
          · exact Or.inl (lt_trans hab hbc)
          · exact Or.inl hab
        · rcases h2 with hbc | ⟨rfl, h2m⟩
          · exact Or.inl hbc
          · exact Or.inr ⟨rfl, ih bs cs h1m h2m⟩

/-- Auxiliary: the emitter's string order is antisymmetric. -/
theorem strLeB_antisymm (x : Cs) : ∀ y : Cs, strLeB x y = true → strLeB y x = true →
    x = y := by
  induction x with
  | nil =>
    intro y h1 _
    cases y with
    | nil => rfl
    | cons b bs => simp [strLeB] at *
  | cons a as_ ih =>
    intro y h1 h2
    cases y with
    | nil => simp [strLeB] at h1
    | cons b bs =>
      rw [strLeB_cons_iff] at h1 h2
      rcases h1 with hab | ⟨rfl, h1m⟩
      · rcases h2 with hba | ⟨hba, _⟩
        · exact absurd (lt_trans hab hba) (lt_irrefl a)
        · exact absurd hab (by rw [hba]; exact lt_irrefl a)
      · rcases h2 with hba | ⟨_, h2m⟩
        · exact absurd hba (lt_irrefl a)
        · rw [ih bs h1m h2m]

instance : IsTotal String sLe := ⟨fun a b => strLeB_total a.data b.data⟩

instance : IsTrans String sLe :=
  ⟨fun a b c h1 h2 => strLeB_trans a.data b.data c.data h1 h2⟩

instance : IsAntisymm String sLe :=
  ⟨fun a b h1 h2 => by
    have h := strLeB_antisymm a.data b.data h1 h2
    cases a
    cases b
    exact congrArg String.mk h⟩

/-- Filter of `collect_nets`: named nets not carrying the reserved
`unconnected-` prefix. -/
def netKeep (s : String) : Bool := !(s == "") && !(startsW s.data "unconnected-".data)

/-- One step of the net-collection fold of `collect_nets`. -/
def cnStep (m : List (String × NetType)) (e : Nat × String) : List (String × NetType) :=
  if netKeep e.2 then hmInsert m e.2 (infer_net_type e.2) else m

/-- Auxiliary: `collect_nets` as a fold of `cnStep` over the PCB net table. -/
theorem collect_nets_eq (p : KicadProject) (pcb : KicadPcb) (hp : p.pcb = some pcb) :
    collect_nets p = pcb.nets.foldl cnStep [] := by
  unfold collect_nets
  rw [hp]
  rfl

/-- Auxiliary: membership in an association-map insertion. -/
theorem hmInsert_mem (m : List (String × NetType)) (k : String) (v : NetType)
    (x : String × NetType) :
    x ∈ hmInsert m k v ↔ (x ∈ m ∧ x.1 ≠ k) ∨ x = (k, v) := by
  unfold hmInsert
  split_ifs with hany
  · simp only [List.mem_map]
    constructor
    · rintro ⟨e, he, heq⟩
      by_cases hek : (e.1 == k) = true
      · rw [if_pos hek] at heq
        right
        exact heq.symm
      · rw [if_neg hek] at heq
        left
        rw [← heq]
        exact ⟨he, by simpa using hek⟩
    · rintro (⟨hx, hxk⟩ | rfl)
      · exact ⟨x, hx, by rw [if_neg (by simpa using hxk)]⟩
      · rw [List.any_eq_true] at hany
        obtain ⟨e, he, hek⟩ := hany
        exact ⟨e, he, by rw [if_pos hek]⟩
  · simp only [List.mem_append, List.mem_singleton]
    constructor
    · rintro (hx | rfl)
      · refine Or.inl ⟨hx, ?_⟩
        intro hk
        apply hany
        rw [List.any_eq_true]
        exact ⟨x, hx, by simp [hk]⟩
      · exact Or.inr rfl
    · rintro (⟨hx, _⟩ | rfl)
      · exact Or.inl hx
      · exact Or.inr rfl

/-- Auxiliary: key membership in an association-map insertion. -/
theorem hmInsert_key_mem (m : List (String × NetType)) (k : String) (v : NetType)
    (n : String) :
    (∃ t, (n, t) ∈ hmInsert m k v) ↔ (∃ t, (n, t) ∈ m) ∨ n = k := by
  constructor
  · rintro ⟨t, ht⟩
    rw [hmInsert_mem] at ht
    rcases ht with ⟨hm, _⟩ | heq
    · exact Or.inl ⟨t, hm⟩
    · right
      exact congrArg Prod.fst heq
  · rintro (⟨t, ht⟩ | rfl)
    · by_cases hnk : n = k
      · exact ⟨v, by rw [hmInsert_mem]; right; rw [hnk]⟩
      · exact ⟨t, by rw [hmInsert_mem]; exact Or.inl ⟨ht, hnk⟩⟩
    · exact ⟨v, by rw [hmInsert_mem]; exact Or.inr rfl⟩

/-- Auxiliary: an insertion of a key-determined value preserves
key-determination of the map's values. -/
theorem hmInsert_values (m : List (String × NetType)) (k : String)
    (hm : ∀ x ∈ m, x.2 = infer_net_type x.1) :
    ∀ x ∈ hmInsert m k (infer_net_type k), x.2 = infer_net_type x.1 := by
  intro x hx
  rw [hmInsert_mem] at hx
  rcases hx with ⟨hmem, _⟩ | rfl
  · exact hm x hmem
  · rfl

/-- Auxiliary: an insertion preserves distinctness of the map's keys. -/
theorem hmInsert_keys_nodup (m : List (String × NetType)) (k : String) (v : NetType)
    (h : (m.map Prod.fst).Nodup) : ((hmInsert m k v).map Prod.fst).Nodup := by
  unfold hmInsert
  split_ifs with hany
  · have hkeys : ((m.map (fun e => if e.1 == k then (k, v) else e)).map Prod.fst) =
        m.map Prod.fst := by
      rw [List.map_map]
      apply List.map_congr_left
      intro e _
      show Prod.fst (if e.1 == k then (k, v) else e) = e.1
      by_cases hek : (e.1 == k) = true
      · rw [if_pos hek]
        exact (by simpa using hek : e.1 = k).symm
      · rw [if_neg hek]
    rw [hkeys]
    exact h
  · rw [List.map_append]
    rw [List.nodup_append]
    refine ⟨h, by simp, ?_⟩
    intro a ha hak
    simp only [List.map_cons, List.map_nil, List.mem_singleton] at hak
    subst hak
    rw [List.mem_map] at ha
    obtain ⟨e, he, hfst⟩ := ha
    apply hany
    rw [List.any_eq_true]
    exact ⟨e, he, by simp [hfst]⟩

/-- Auxiliary: every value of the net-collection fold is the inferred type of
its key. -/
theorem cn_fold_values (ns : List (Nat × String)) :
    ∀ m, (∀ x ∈ m, x.2 = infer_net_type x.1) →
      ∀ x ∈ ns.foldl cnStep m, x.2 = infer_net_type x.1 := by
  induction ns with
  | nil =>
    intro m hm
    simpa using hm
  | cons e ns ih =>
    intro m hm
    rw [List.foldl_cons]
    apply ih
    unfold cnStep
    split_ifs with hc
    · exact hmInsert_values m e.2 hm
    · exact hm

/-- Auxiliary: the keys of the net-collection fold are the kept names of the
input, plus the seed keys. -/
theorem cn_fold_keys (ns : List (Nat × String)) :
    ∀ m n, (∃ t, (n, t) ∈ ns.foldl cnStep m) ↔
      (∃ t, (n, t) ∈ m) ∨ ∃ e ∈ ns, netKeep e.2 = true ∧ e.2 = n := by
  induction ns with
  | nil =>
    intro m n
    simp
  | cons e ns ih =>
    intro m n
    rw [List.foldl_cons, ih (cnStep m e) n]
    unfold cnStep
    split_ifs with hc
    · rw [hmInsert_key_mem]
      constructor
      · rintro ((hm | rfl) | hrest)
        · exact Or.inl hm
        · exact Or.inr ⟨e, List.mem_cons_self e ns, hc, rfl⟩
        · obtain ⟨f, hf, hk, hn⟩ := hrest
          exact Or.inr ⟨f, List.mem_cons_of_mem e hf, hk, hn⟩
      · rintro (hm | ⟨f, hf, hk, hn⟩)
        · exact Or.inl (Or.inl hm)
        · rcases List.mem_cons.mp hf with rfl | hf2
          · exact Or.inl (Or.inr hn.symm)
          · exact Or.inr ⟨f, hf2, hk, hn⟩
    · constructor
      · rintro (hm | hrest)
        · exact Or.inl hm
        · obtain ⟨f, hf, hk, hn⟩ := hrest
          exact Or.inr ⟨f, List.mem_cons_of_mem e hf, hk, hn⟩
      · rintro (hm | ⟨f, hf, hk, hn⟩)
        · exact Or.inl hm
        · rcases List.mem_cons.mp hf with rfl | hf2
          · exact absurd hk hc
          · exact Or.inr ⟨f, hf2, hk, hn⟩

/-- Auxiliary: the net-collection fold keeps its keys distinct. -/
theorem cn_fold_nodup (ns : List (Nat × String)) :
    ∀ m, (m.map Prod.fst).Nodup → ((ns.foldl cnStep m).map Prod.fst).Nodup := by
  induction ns with
  | nil =>
    intro m hm
    simpa using hm
  | cons e ns ih =>
    intro m hm
    rw [List.foldl_cons]
    apply ih
    unfold cnStep
    split_ifs with hc
    · exact hmInsert_keys_nodup m e.2 (infer_net_type e.2) hm
    · exact hm

/-- Auxiliary: entry characterization of the net-collection fold. -/
theorem cn_fold_mem (ns : List (Nat × String)) (x : String × NetType) :
    x ∈ ns.foldl cnStep [] ↔
      (x.2 = infer_net_type x.1 ∧ ∃ e ∈ ns, netKeep e.2 = true ∧ e.2 = x.1) := by
  constructor
  · intro hx
    refine ⟨cn_fold_values ns [] (by simp) x hx, ?_⟩
    have hk : ∃ t, (x.1, t) ∈ ns.foldl cnStep [] := ⟨x.2, hx⟩
    rw [cn_fold_keys] at hk
    rcases hk with ⟨t, ht⟩ | h
    · simp at ht
    · exact h
  · rintro ⟨hval, hkey⟩
    have hk : (∃ t, (x.1, t) ∈ ([] : List (String × NetType))) ∨
        ∃ e ∈ ns, netKeep e.2 = true ∧ e.2 = x.1 := Or.inr hkey
    rw [← cn_fold_keys] at hk
    obtain ⟨t, ht⟩ := hk
    have hv := cn_fold_values ns [] (by simp) (x.1, t) ht
    have hx2 : x.2 = t := by rw [hval, ← hv]
    have hxe : (x.1, t) = x := by
      rw [← hx2]
    rwa [hxe] at ht

/-- Auxiliary: the net-collection fold is permutation-invariant up to
permutation of the resulting map. -/
theorem cn_fold_perm (ns ns' : List (Nat × String)) (h : ns.Perm ns') :
    (ns.foldl cnStep []).Perm (ns'.foldl cnStep []) := by
  have d1 : (ns.foldl cnStep []).Nodup :=
    List.Nodup.of_map Prod.fst (cn_fold_nodup ns [] (by simp))
  have d2 : (ns'.foldl cnStep []).Nodup :=
    List.Nodup.of_map Prod.fst (cn_fold_nodup ns' [] (by simp))
  rw [List.perm_ext_iff_of_nodup d1 d2]
  intro a
  rw [cn_fold_mem, cn_fold_mem]
  constructor
  · rintro ⟨hv, e, he, hk, hn⟩
    exact ⟨hv, e, h.mem_iff.mp he, hk, hn⟩
  · rintro ⟨hv, e, he, hk, hn⟩
    exact ⟨hv, e, h.mem_iff.mpr he, hk, hn⟩

/-- Auxiliary: `List.any` only depends on the elements. -/
theorem perm_any {α : Type} (f : α → Bool) (l l' : List α) (h : l.Perm l') :
    l.any f = l'.any f := by
  by_cases hb : l.any f = true
  · rw [hb]
    symm
    rw [List.any_eq_true] at hb ⊢
    obtain ⟨x, hx, hf⟩ := hb
    exact ⟨x, h.mem_iff.mp hx, hf⟩
  · have hb2 : ¬l'.any f = true := by
      intro hc
      apply hb
      rw [List.any_eq_true] at hc ⊢
      obtain ⟨x, hx, hf⟩ := hc
      exact ⟨x, h.mem_iff.mpr hx, hf⟩
    rw [Bool.not_eq_true] at hb hb2
    rw [hb, hb2]

/-- Auxiliary: unfolding equation of the import emitter. -/
theorem emit_imports_eq (nets : List (String × NetType)) :
    emit_imports nets =
      (if (nets.any fun e => e.2 == NetType.power) || (nets.any fun e => e.2 == NetType.ground)
      then
        "load(\"@stdlib/interfaces.zen\", " ++
          joinSep ", " (((if nets.any fun e => e.2 == NetType.power then ["Power"] else []) ++
            (if nets.any fun e => e.2 == NetType.ground then ["Ground"] else [])).map quoteS) ++
          ")\n"
      else "") ++ "\n" := rfl

/-- Auxiliary: the import block only depends on the elements of the net map. -/
theorem emit_imports_perm (ns ns' : List (String × NetType)) (h : ns.Perm ns') :
    emit_imports ns = emit_imports ns' := by
  rw [emit_imports_eq, emit_imports_eq,
    perm_any (fun e => e.2 == NetType.power) ns ns' h,
    perm_any (fun e => e.2 == NetType.ground) ns ns' h]

/-- Auxiliary: sorting two lists of the same elements gives the same list. -/
theorem sortStr_perm_eq (l l' : List String) (h : l.Perm l') : sortStr l = sortStr l' := by
  unfold sortStr
  refine List.eq_of_perm_of_sorted ?_ (List.sorted_insertionSort sLe l)
    (List.sorted_insertionSort sLe l')
  exact (List.perm_insertionSort sLe l).trans (h.trans (List.perm_insertionSort sLe l').symm)

/-- Auxiliary: the net map lookup as a function of the key set, for maps with
key-determined values. -/
theorem findTypeIn_spec (ns : List (String × NetType))
    (hv : ∀ x ∈ ns, x.2 = infer_net_type x.1) (n : String) :
    findTypeIn ns n =
      if ns.any (fun e => e.1 == n) then infer_net_type n else NetType.signal := by
  unfold findTypeIn
  cases hf : ns.find? (fun e => e.1 == n) with
  | none =>
    have hc : ¬((ns.any fun e => e.1 == n) = true) := by
      rw [List.find?_eq_none] at hf
      rw [List.any_eq_true]
      rintro ⟨e, he, hp⟩
      exact hf e he hp
    rw [if_neg hc]
    rfl
  | some e =>
    have hps := List.find?_some hf
    have hc : (ns.any fun e => e.1 == n) = true := by
      rw [List.any_eq_true]
      exact ⟨e, List.mem_of_find?_eq_some hf, hps⟩
    rw [if_pos hc]
    have h1 : e.2 = infer_net_type e.1 := hv e (List.mem_of_find?_eq_some hf)
    have h2 : e.1 = n := by simpa using hps
    simp [h1, h2]

/-- Auxiliary: the net-declaration block only depends on the elements of a
key-determined net map. -/
theorem emit_net_declarations_congr (ns ns' : List (String × NetType)) (h : ns.Perm ns')
    (hv : ∀ x ∈ ns, x.2 = infer_net_type x.1)
    (hv2 : ∀ x ∈ ns', x.2 = infer_net_type x.1) :
    emit_net_declarations ns = emit_net_declarations ns' := by
  unfold emit_net_declarations
  have hlen := h.length_eq
  have hemp : ns.isEmpty = ns'.isEmpty := by
    cases ns with
    | nil =>
      cases ns' with
      | nil => rfl
      | cons b l2 => simp at hlen
    | cons a l1 =>
      cases ns' with
      | nil => simp at hlen
      | cons b l2 => rfl
  rw [hemp]
  split_ifs with he
  · rfl
  · have hnames : sortedNetNames ns = sortedNetNames ns' := by
      unfold sortedNetNames
      exact sortStr_perm_eq _ _ (h.map _)
    rw [hnames]
    congr 1
    congr 1
    apply List.foldl_ext
    intro acc b _
    rw [findTypeIn_spec ns hv b, findTypeIn_spec ns' hv2 b,
      perm_any (fun e => e.1 == b) ns ns' h]

/-- Auxiliary: unfolding equation of the idiomatic emitter. -/
theorem emit_idiomatic_eq (p : KicadProject) :
    emit_idiomatic p =
      emitHeaderIdiomatic p.name ++ emit_imports (collect_nets p) ++
        emit_module_aliases (collect_used_modules p) ++
        emit_net_declarations (collect_nets p) ++ emit_components_idiomatic p := rfl

/-- C8: emission is a deterministic function of the parsed project: reading
the PCB net table in any other order (the only iteration-order freedom a hash
map gives the collection pass) yields byte-identical output, the net
declarations run over raw net names sorted by the string order, and the module
alias block runs over module paths sorted by the string order. -/
theorem emit_idiomatic_deterministic (p : KicadProject) (pcb : KicadPcb)
    (ns' : List (Nat × String)) (hp : p.pcb = some pcb) (hperm : pcb.nets.Perm ns') :
    emit_idiomatic { p with pcb := some { pcb with nets := ns' } } = emit_idiomatic p ∧
      List.Sorted sLe (sortedNetNames (collect_nets p)) ∧
      List.Sorted sLe (sortStr (collect_used_modules p)) := by
  refine ⟨?_, ?_, ?_⟩
  · have hcn2 : collect_nets { p with pcb := some { pcb with nets := ns' } } =
        ns'.foldl cnStep [] := by
      unfold collect_nets
      rfl
    have hcn : collect_nets p = pcb.nets.foldl cnStep [] := collect_nets_eq p pcb hp
    have hfperm : (ns'.foldl cnStep []).Perm (pcb.nets.foldl cnStep []) :=
      cn_fold_perm ns' pcb.nets hperm.symm
    have hv2 : ∀ x ∈ ns'.foldl cnStep [], x.2 = infer_net_type x.1 :=
      cn_fold_values ns' [] (by simp)
    have hv : ∀ x ∈ pcb.nets.foldl cnStep [], x.2 = infer_net_type x.1 :=
      cn_fold_values pcb.nets [] (by simp)
    have hname : ({ p with pcb := some { pcb with nets := ns' } } : KicadProject).name =
        p.name := rfl
    have hmods : collect_used_modules { p with pcb := some { pcb with nets := ns' } } =
        collect_used_modules p := rfl
    have hcomp : emit_components_idiomatic { p with pcb := some { pcb with nets := ns' } } =
        emit_components_idiomatic p := by
      have hu : uuid_to_footprint { p with pcb := some { pcb with nets := ns' } } =
          uuid_to_footprint p := by
        unfold uuid_to_footprint
        rw [hp]
      unfold emit_components_idiomatic
      rw [hu]
    rw [emit_idiomatic_eq, emit_idiomatic_eq, hname, hmods, hcomp, hcn2, hcn,
      emit_imports_perm _ _ hfperm, emit_net_declarations_congr _ _ hfperm hv2 hv]
  · unfold sortedNetNames sortStr
    exact List.sorted_insertionSort sLe _
  · unfold sortStr
    exact List.sorted_insertionSort sLe _

/-- PCB fixture for the determinism witness. -/
def c8Pcb : KicadPcb :=
  { version := 0, thickness := 1.6, layers := [],
    nets := [(1, "GND"), (2, "VCC")], footprints := [] }

/-- Project fixture for the determinism witness. -/
def c8Project : KicadProject :=
  { name := "c8", schematic := none, pcb := some c8Pcb, project := none }

/-- Reordered net table for the determinism witness. -/
def c8NetsPerm : List (Nat × String) := [(2, "VCC"), (1, "GND")]

/-- Witness: the determinism theorem applied to a two-net project with its net
table read in the opposite order. -/
theorem emit_idiomatic_deterministic_witness :
    c8Project.pcb = some c8Pcb ∧ c8Pcb.nets.Perm c8NetsPerm ∧
      (emit_idiomatic { c8Project with pcb := some { c8Pcb with nets := c8NetsPerm } } =
          emit_idiomatic c8Project ∧
        List.Sorted sLe (sortedNetNames (collect_nets c8Project)) ∧
        List.Sorted sLe (sortStr (collect_used_modules c8Project))) :=
  ⟨rfl, List.Perm.swap _ _ _,
    emit_idiomatic_deterministic c8Project c8Pcb c8NetsPerm rfl (List.Perm.swap _ _ _)⟩

end KicadToZen